import Mathlib

/-!
Verification of the rummy deck compiler (src/rummy) against its
natural-language specification.  The C++ sources are shallowly embedded:
std::string is modelled as a list of characters, std::map as an
association list whose insert-or-assign keeps the first-insertion order,
fatal error paths (which abort the process) as Except error results that
also carry the state at the abort point.  Numbers are modelled as
integers: none of the checked claims depends on floating-point behaviour,
and every concrete input in this development uses integral values, for
which the C++ double arithmetic is exact.
-/

namespace Rummy

/-- Character sequences as lists of characters; models std::string. -/
abbrev Str := List Char

/-- Model of std::isspace over the characters that can appear here. -/
def isCppSpace (c : Char) : Bool :=
  c == ' ' || c == '\t' || c == '\n' || c == '\r' || c == '\x0b' || c == '\x0c'

/-- The character of one decimal digit. -/
def digitChar : Nat → Char
  | 0 => '0'
  | 1 => '1'
  | 2 => '2'
  | 3 => '3'
  | 4 => '4'
  | 5 => '5'
  | 6 => '6'
  | 7 => '7'
  | 8 => '8'
  | _ => '9'

/-- Decimal digits of a natural number (fuel-driven divide-by-ten). -/
def natToCharsAux : Nat → Nat → List Char
  | 0, _ => []
  | fuel + 1, n =>
    if n < 10 then [digitChar n]
    else natToCharsAux fuel (n / 10) ++ [digitChar (n % 10)]

/-- Decimal digits of a natural number, as characters. -/
def natToChars (n : Nat) : Str := natToCharsAux (n + 1) n

/-- Model of std::to_string on int. -/
def intToChars (i : Int) : Str :=
  if i < 0 then '-' :: natToChars i.natAbs else natToChars i.toNat

/-- Digit characters to a natural number. -/
def digitsToNat (ds : Str) : Nat := ds.foldl (fun a c => a * 10 + (c.toNat - 48)) 0

/-- Model of std::stoi: skip leading whitespace, optional sign, a nonempty
digit prefix; none models the exception thrown when no digit is found. -/
def stoiChars (s : Str) : Option Int :=
  let core := fun (neg : Bool) (u : Str) =>
    let ds := u.takeWhile (fun c => c.isDigit)
    if ds = [] then none
    else some (if neg then -(digitsToNat ds : Int) else (digitsToNat ds : Int))
  match s.dropWhile (fun c => isCppSpace c) with
  | '-' :: u => core true u
  | '+' :: u => core false u
  | u => core false u

/-- Full-string integer literal (used by the modelled evaluator). -/
def parseIntAll (s : Str) : Option Int :=
  match s with
  | '-' :: ds =>
    if !ds.isEmpty && ds.all (fun c => c.isDigit) then some (-(digitsToNat ds : Int)) else none
  | ds =>
    if !ds.isEmpty && ds.all (fun c => c.isDigit) then some (digitsToNat ds : Int) else none

/-- rummy_utils.hpp RemoveLeadingWhitespace. -/
def RemoveLeadingWhitespace (s : Str) : Str := s.dropWhile (fun c => isCppSpace c)

/-- rummy_utils.hpp RemoveTrailingWhitespace. -/
def RemoveTrailingWhitespace (s : Str) : Str :=
  (s.reverse.dropWhile (fun c => isCppSpace c)).reverse

/-- rummy_utils.hpp RemoveWhitespace. -/
def RemoveWhitespace (s : Str) : Str := s.filter (fun c => !(isCppSpace c))

/-- rummy_utils.hpp EmptyCheck, with fatal modelled as an error result. -/
def EmptyCheck (s : Str) (lineNum : Nat) : Except Str Unit :=
  if s = [] then .error (("Empty string at line ").toList ++ natToChars lineNum) else .ok ()

/-- rummy_utils.hpp RemoveWhitespacePreserveQuotes: whitespace is removed
before the first double quote and after the matching second double quote;
the first quoted substring passes through verbatim.  An unmatched opening
quote is fatal.  (Any further quote pairs after the first are inside the
third segment and get their whitespace removed, exactly as in the C++.) -/
def RemoveWhitespacePreserveQuotes (s : Str) (lineNum : Nat) : Except Str Str :=
  let pre := s.takeWhile (fun c => !(c == '"'))
  if pre.length = s.length then .ok (RemoveWhitespace s)
  else
    let rest := (s.drop pre.length).drop 1
    let q := rest.takeWhile (fun c => !(c == '"'))
    if q.length = rest.length then
      .error (("Missing closing quote in card value at line ").toList ++ natToChars lineNum)
    else
      .ok (RemoveWhitespace pre ++ '"' :: (q ++ '"' :: RemoveWhitespace (rest.drop (q.length + 1))))

/-- Substring containment, modelling std::string::find(needle) != npos. -/
def containsSub (hay needle : Str) : Bool :=
  match hay with
  | [] => needle.isEmpty
  | c :: t => needle.isPrefixOf (c :: t) || containsSub t needle

/-- Association-list lookup; models std::map::find. -/
def lookupA {α : Type} : List (Str × α) → Str → Option α
  | [], _ => none
  | (k, v) :: t, key => if k = key then some v else lookupA t key

/-- Association-list insert-or-assign; models map::operator[] assignment.
An existing key keeps its position, a new key is appended. -/
def insertA {α : Type} : List (Str × α) → Str → α → List (Str × α)
  | [], key, v => [(key, v)]
  | (k, w) :: t, key, v => if k = key then (k, v) :: t else (k, w) :: insertA t key v

/-- Association-list erase; models std::map::erase after a successful find. -/
def eraseA {α : Type} : List (Str × α) → Str → List (Str × α)
  | [], _ => []
  | (k, w) :: t, key => if k = key then t else (k, w) :: eraseA t key

/-- Key membership; models map::find != map::end. -/
def containsA {α : Type} (l : List (Str × α)) (key : Str) : Bool :=
  (lookupA l key).isSome

/-- pips::Value: tagged union over number, string, boolean.  Numbers are
modelled as integers (see the file header). -/
inductive Value where
  | num (n : Int)
  | str (s : Str)
  | bool (b : Bool)
  deriving DecidableEq

/-- The three pips::ValueType tags. -/
inductive ValueKind where
  | knum
  | kstr
  | kbool
  deriving DecidableEq

/-- The tag of a value. -/
def Value.kind : Value → ValueKind
  | .num _ => .knum
  | .str _ => .kstr
  | .bool _ => .kbool

/-- deck.hpp class Card.  The C++ default constructor leaves the
initialized flag indeterminate; it is modelled as false, which is the
value the surrounding code relies on when it tests empty(). -/
structure Card where
  loc : Int
  suit : Str
  name : Str
  comment : Str
  value : Value
  initialized : Bool
  deriving DecidableEq

/-- The five-argument Card constructor (loc defaults to -1 at call sites). -/
def Card.make (suit name : Str) (v : Value) (comment : Str) (loc : Int) : Card :=
  ⟨loc, suit, name, comment, v, true⟩

/-- A default-constructed Card, as produced by map::operator[]. -/
def defaultCard : Card := ⟨0, [], [], [], Value.num 0, false⟩

/-- Card::empty(). -/
def Card.empty (c : Card) : Bool := !c.initialized

/-- Card::GetString.  In the integer model of numbers the integral branch
of the C++ (static_cast<int>(x) == x) always applies, so numbers render
without a fractional part. -/
def Card.GetString (c : Card) : Str :=
  match c.value with
  | .str s => s
  | .num n => intToChars n
  | .bool b => if b then ("true").toList else ("false").toList

/-- Card::Get<T>, at the level of value kinds: knum stands for the
arithmetic instantiations (integral in this model, so the bool-to-number
path of the C++ is admissible), kstr for std::string, kbool for bool. -/
def Card.GetAs (c : Card) (k : ValueKind) : Except Str Value :=
  match k with
  | .kstr =>
    match c.value with
    | .str s => .ok (.str s)
    | _ => .error (("Calling Get with a string type but value is not a string at ").toList
        ++ c.suit ++ '/' :: c.name)
  | .kbool =>
    match c.value with
    | .bool b => .ok (.bool b)
    | .num n => .ok (.bool (decide (n ≠ 0)))
    | _ => .error (("Calling Get with a boolean type but value is not a boolean at ").toList
        ++ c.suit ++ '/' :: c.name)
  | .knum =>
    match c.value with
    | .num n => .ok (.num n)
    | .bool b => .ok (.num (if b then 1 else 0))
    | _ => .error (("Calling Get with an arithmetic type but value is not a number at ").toList
        ++ c.suit ++ '/' :: c.name)

/-- deck.hpp class Deck: the suit-to-card table and the ordered suit
registry, which starts as the single root sentinel. -/
structure Deck where
  table : List (Str × List (Str × Card))
  suits : List Str
  deriving DecidableEq

/-- A default-constructed Deck. -/
def Deck.emptyDeck : Deck := ⟨[], [['/']]⟩

/-- Deck::AddCard (deck.hpp lines 153-163): creates the suit in the table
when absent and inserts the entry; suits_in_order is not touched. -/
def AddCard (d : Deck) (suit name : Str) (v : Value) (comment : Str) : Deck :=
  let suitMap := (lookupA d.table suit).getD []
  { d with table := insertA d.table suit (insertA suitMap name (Card.make suit name v comment (-1))) }

/-- Deck::CopyCard: AddCard with an already-built Card. -/
def CopyCard (d : Deck) (c : Card) : Deck :=
  let suitMap := (lookupA d.table c.suit).getD []
  { d with table := insertA d.table c.suit (insertA suitMap c.name c) }

/-- Deck::GetCard (deck.cpp lines 450-464).  The C++ reads
deck[suit][name], so a missing name inserts a default-constructed Card
into the suit before the empty() test fails; the returned deck carries
that mutation. -/
def GetCard (d : Deck) (suit name : Str) : Except Str Card × Deck :=
  match lookupA d.table suit with
  | none => (.error (("Suit not found in the deck: ").toList ++ suit), d)
  | some m =>
    match lookupA m name with
    | some c =>
      if c.initialized then (.ok c, d)
      else (.error (("Card not found in suit: ").toList ++ name), d)
    | none =>
      (.error (("Card not found in suit: ").toList ++ name),
       { d with table := insertA d.table suit (insertA m name defaultCard) })

/-- Deck::UpdateCard (value overload, deck.hpp lines 173-180): replaces
the value, keeps loc, keeps the old comment unless a nonempty one is
supplied; fatal when the entry does not exist. -/
def UpdateCard (d : Deck) (suit name : Str) (v : Value) (comment : Str) :
    Except Str Unit × Deck :=
  match GetCard d suit name with
  | (.error e, d2) => (.error e, d2)
  | (.ok c, d2) =>
    let cmt := if comment = [] then c.comment else comment
    let suitMap := (lookupA d2.table suit).getD []
    let tbl := insertA d2.table suit (insertA suitMap name (Card.make suit name v cmt c.loc))
    (.ok (), { d2 with table := tbl })

/-- Deck::RemoveCard (deck.cpp lines 465-479). -/
def RemoveCard (d : Deck) (suit name : Str) : Except Str Unit × Deck :=
  match lookupA d.table suit with
  | none => (.error (("Suit not found in the deck: ").toList ++ suit), d)
  | some m =>
    match lookupA m name with
    | none => (.error (("Card not found in suit: ").toList ++ name), d)
    | some _ => (.ok (), { d with table := insertA d.table suit (eraseA m name) })

/-- Deck::GetOrAddCardValue (deck.hpp lines 181-199).  The comment
argument of the C++ defaults to a fixed run-time note; callers here pass
it explicitly. -/
def GetOrAddCardValue (d : Deck) (suit name : Str) (v : Value) (comment : Str) :
    Except Str Value × Deck :=
  if containsA d.table suit = false then
    (.ok v, AddCard d suit name v comment)
  else
    let m := (lookupA d.table suit).getD []
    match lookupA m name with
    | none =>
      let tbl := insertA d.table suit (insertA m name (Card.make suit name v comment (-1)))
      (.ok v, { d with table := tbl })
    | some _ =>
      match GetCard d suit name with
      | (.ok c, d2) => (c.GetAs v.kind, d2)
      | (.error e, d2) => (.error e, d2)

/-- Deck::DoesSuitExist. -/
def DoesSuitExist (d : Deck) (suit : Str) : Bool := containsA d.table suit

/-- Deck::DoesCardExist (deck.cpp lines 556-560). -/
def DoesCardExist (d : Deck) (suit name : Str) : Bool :=
  match lookupA d.table suit with
  | none => false
  | some m => containsA m name

/-- Deck::FindSuit (deck.cpp lines 491-499). -/
def FindSuit (d : Deck) (suit : Str) : Except Str (List (Str × Card)) :=
  match lookupA d.table suit with
  | none => .error (("Suit not found in the deck: ").toList ++ suit)
  | some m => .ok m

/-- Erase the first star of a pattern; none when there is no star, in
which case std::string::replace(npos, 1, emptyString) throws
std::out_of_range in the C++. -/
def removeFirstStar : Str → Option Str
  | [] => none
  | c :: t => if c = '*' then some t else (removeFirstStar t).map (fun r => c :: r)

/-- The suit loop of Deck::FindSuitFuzzy: concatenate, in table order, the
entries of every suit whose name has the pattern as a substring. -/
def fuzzyCollect (tbl : List (Str × List (Str × Card))) (pat : Str) : List Card :=
  match tbl with
  | [] => []
  | (sn, m) :: t =>
    (if containsSub sn pat then m.map (fun p => p.2) else []) ++ fuzzyCollect t pat

/-- Deck::FindSuitFuzzy (deck.cpp lines 501-519): a pattern other than the
root sentinel has its first star erased (no star at all throws); the
no-match diagnostic is printed to stderr and is not part of the value. -/
def FindSuitFuzzy (d : Deck) (pat : Str) : Except Str (List Card) :=
  if pat = ['/'] then .ok (fuzzyCollect d.table pat)
  else
    match removeFirstStar pat with
    | none => .error ("out_of_range: pattern without star in FindSuitFuzzy").toList
    | some p => .ok (fuzzyCollect d.table p)

/-- The claim sentence for FindSuitFuzzy taken literally: strip every
star, substring-match against every suit name, concatenate the matching
entries, and never fail. -/
def FindSuitFuzzyClaim (d : Deck) (pat : Str) : List Card :=
  let p := pat.filter (fun c => !(c == '*'))
  ((d.table.filter (fun e => containsSub e.1 p)).map (fun e => e.2.map (fun q => q.2))).flatten

/-- Deck::FindCardFuzzy (deck.cpp lines 543-552). -/
def FindCardFuzzy (d : Deck) (suit name : Str) : Except Str (List Card) :=
  match FindSuit d suit with
  | .error e => .error e
  | .ok m => .ok ((m.filter (fun p => containsSub p.1 name)).map (fun p => p.2))

/-- The Deck copy constructor (deck.hpp line 132): only the table is
copied; the suits member is rebuilt from its default initializer. -/
def copyDeck (other : Deck) : Deck := ⟨other.table, [['/']]⟩

/-- The Deck copy assignment (deck.hpp lines 133-138): only the table is
assigned; the target keeps its own suits member. -/
def assignDeck (target other : Deck) : Deck := ⟨other.table, target.suits⟩

/-- One serialized card line of Deck::WriteDeck. -/
def renderCard (name : Str) (c : Card) : Str :=
  name ++ (" = ").toList ++
  (match c.value with
   | .str _ => '"' :: (c.GetString ++ ['"'])
   | _ => c.GetString) ++
  (if c.comment = [] then [] else ("  # ").toList ++ c.comment)

/-- Deck::WriteDeck (deck.cpp lines 561-584), as the list of emitted
lines: suits in registry order, skipping names absent from the table; a
header for every suit except the empty name and the root sentinel; one
blank line after each emitted suit. -/
def WriteDeck (d : Deck) : List Str :=
  (d.suits.map (fun sn =>
    match lookupA d.table sn with
    | none => []
    | some m =>
      (if sn = [] ∨ sn = ['/'] then [] else ['<' :: (sn ++ ['>'])]) ++
      m.map (fun p => renderCard p.1 p.2) ++ [([] : Str)])).flatten

/-- Scanner state of the slice branch of SplitString. -/
structure ScanSt where
  parts : List Str
  lowers : List Int
  uppers : List Int
  current : Str
  slice : Str
  inBrackets : Bool
  deriving DecidableEq

/-- Initial scanner state. -/
def scanInit : ScanSt := ⟨[], [], [], [], [], false⟩

/-- One character of the slice scanner (rummy_utils.hpp lines 106-146).
A slice bound that std::stoi cannot parse is modelled as an error. -/
def scanStep (lineNum : Nat) (maxSize : Int) (st : ScanSt) (c : Char) : Except Str ScanSt :=
  if c = '[' then
    let st2 := if st.current = [] then st
               else { st with parts := st.parts ++ [st.current], current := [] }
    .ok { st2 with inBrackets := true }
  else if st.inBrackets then
    if c = ':' then
      if st.slice = [] then .ok { st with lowers := st.lowers ++ [0] }
      else
        match stoiChars st.slice with
        | none => .error ("stoi: invalid slice bound").toList
        | some k => .ok { st with lowers := st.lowers ++ [k], slice := [] }
    else if c = ']' then
      if st.slice = [] then
        if maxSize < 0 then
          .error (("Must specify upper bound in vector slice declaration at line ").toList
            ++ natToChars lineNum)
        else .ok { st with uppers := st.uppers ++ [maxSize], inBrackets := false }
      else
        match stoiChars st.slice with
        | none => .error ("stoi: invalid slice bound").toList
        | some k => .ok { st with uppers := st.uppers ++ [k], slice := [], inBrackets := false }
    else .ok { st with slice := st.slice ++ [c] }
  else .ok { st with current := st.current ++ [c] }

/-- The full slice scan: fold the characters, then push a nonempty
trailing part (rummy_utils.hpp lines 100-150). -/
def sliceScan (s : Str) (lineNum : Nat) (maxSize : Int) :
    Except Str (List Str × List Int × List Int) :=
  match s.foldlM (scanStep lineNum maxSize) scanInit with
  | .error e => .error e
  | .ok st =>
    let parts := if st.current = [] then st.parts else st.parts ++ [st.current]
    .ok (parts, st.lowers, st.uppers)

/-- The count computed at rummy_utils.hpp lines 153-156: the minimum of
the spans (upper minus lower) over the zipped bound lists, starting from
the 99999 sentinel. -/
def minSpan (lowers uppers : List Int) : Int :=
  (lowers.zip uppers).foldl (fun a lu => min a (lu.2 - lu.1)) 99999

/-- The name built for offset i (rummy_utils.hpp lines 157-161): every
part is followed by the bracketed lower bound of its position plus i.
When a part has no matching range the C++ indexes lowers out of bounds;
the model reads 0 there. -/
def sliceContents (i : Int) : List Str → List Int → Str
  | [], _ => []
  | p :: ps, lows =>
    p ++ '[' :: (intToChars (lows.headD 0 + i) ++ ']' :: sliceContents i ps lows.tail)

/-- Split on commas, keeping empty segments. -/
def splitOnComma : Str → List Str
  | [] => [[]]
  | c :: t =>
    if c = ',' then [] :: splitOnComma t
    else
      match splitOnComma t with
      | h :: r => (c :: h) :: r
      | [] => [[c]]

/-- Model of the std::getline comma loop: a trailing delimiter produces
no empty final token, and an empty input produces no token. -/
def cppGetlineSplit (s : Str) : List Str :=
  if s = [] then []
  else if s.getLast? = some ',' then (splitOnComma s).dropLast
  else splitOnComma s

/-- rummy_utils.hpp SplitString (lines 81-167).  With no colon the string
is treated as a bracketed comma list (first and last character removed);
with a colon the slice scanner runs and min-span many names are built. -/
def SplitString (s : Str) (lineNum : Nat) (maxSize : Int) : Except Str (List Str) :=
  if s.contains ':' = false then
    (cppGetlineSplit ((s.drop 1).dropLast)).mapM (fun v =>
      match RemoveWhitespacePreserveQuotes v lineNum with
      | .error e => .error e
      | .ok v2 =>
        match EmptyCheck v2 lineNum with
        | .error e => .error e
        | .ok _ => .ok v2)
  else
    match sliceScan s lineNum maxSize with
    | .error e => .error e
    | .ok pls =>
      (List.range (minSpan pls.2.1 pls.2.2).toNat).mapM (fun i =>
        RemoveWhitespacePreserveQuotes (sliceContents (Int.ofNat i) pls.1 pls.2.1) lineNum)

/-- Modelled from the spec: the expression part of the external pips
evaluator, which lives outside this repository and is specified only at
its interface (spec sections 1, 6).  The model covers what the deck
compiler relies on: integer literals, the boolean literals, double-quoted
string literals, and identifier lookup in the global then the local
symbol table. -/
def evalExpr (globals locals : List (Str × Value)) (e0 : Str) : Except Str Value :=
  let e := RemoveTrailingWhitespace (RemoveLeadingWhitespace e0)
  match parseIntAll e with
  | some k => .ok (.num k)
  | none =>
    if e = ("true").toList then .ok (.bool true)
    else if e = ("false").toList then .ok (.bool false)
    else
      match e with
      | '"' :: rest =>
        if rest.getLast? = some '"' && (rest.dropLast.contains '"') = false then
          .ok (.str rest.dropLast)
        else .error ("Cannot evaluate string literal").toList
      | _ =>
        match lookupA globals e with
        | some v => .ok v
        | none =>
          match lookupA locals e with
          | some v => .ok v
          | none => .error (("Undefined reference ").toList ++ e)

/-- Modelled from the spec: pips vm.interpret (spec section 6).  A
statement with an equals sign assigns the evaluated right side to the
name in the global table; a bare statement is evaluated and discarded. -/
def interpret (stmt : Str) (locals globals : List (Str × Value)) :
    Except Str (List (Str × Value)) :=
  let pre := stmt.takeWhile (fun c => !(c == '='))
  if pre.length = stmt.length then
    match evalExpr globals locals stmt with
    | .error e => .error e
    | .ok _ => .ok globals
  else
    let name := RemoveTrailingWhitespace (RemoveLeadingWhitespace pre)
    match evalExpr globals locals (stmt.drop (pre.length + 1)) with
    | .error e => .error e
    | .ok v => .ok (insertA globals name v)

/-- The state threaded through Deck::CompileInput: the Deck members (the
table is only read, the suit registry is mutated), the evaluator tables,
the location and comment side tables, and the transient line state. -/
structure CState where
  deckSt : Deck
  locals : List (Str × Value)
  globals : List (Str × Value)
  locations : List (Str × Int)
  comments : List (Str × Str)
  comment : Str
  multiline : Str
  lineCont : Bool
  currSuit : Str
  prevSuit : Str
  deriving DecidableEq

/-- Lift a fatal result so that it carries the state at the abort. -/
def liftFatal {α : Type} (st : CState) : Except Str α → Except (Str × CState) α
  | .error e => .error (e, st)
  | .ok a => .ok a

/-- The shared submit-and-record step (deck.cpp lines 269-281, 316-330,
351-362): interpret the assignment, read the value back from the global
table, record the line number, attach and clear the pending comment, and
stash the value under the local name. -/
def bindExpr (st : CState) (lineNum : Nat) (globalName localName rhs : Str) :
    Except (Str × CState) CState :=
  let expr := globalName ++ (" = ").toList ++ rhs
  match interpret expr st.locals st.globals with
  | .error _ =>
    .error ((("Failed to compile expression ").toList ++ expr
      ++ (" at line ").toList ++ natToChars lineNum), st)
  | .ok g2 =>
    let v := (lookupA g2 globalName).getD (Value.num 0)
    .ok { st with globals := g2,
                  locations := insertA st.locations globalName (Int.ofNat lineNum),
                  comments := insertA st.comments globalName st.comment,
                  comment := [],
                  locals := insertA st.locals localName v }

/-- The suit-header branch of CompileInput (deck.cpp lines 129-162).  The
current suit is pushed onto the registry when the table does not yet know
it; the table itself is not touched (the insertion at line 157 of the
source is commented out). -/
def handleHeader (st : CState) (lineNum : Nat) (content : Str) : Except (Str × CState) CState :=
  let rest := content.drop 1
  if rest.contains '>' = false then
    .error ((("Missing > in suit declaration at line ").toList ++ natToChars lineNum), st)
  else
    let suitName0 := RemoveWhitespace (rest.takeWhile (fun c => !(c == '>')))
    if suitName0 = [] then
      .error ((("Empty suit name at line ").toList ++ natToChars lineNum), st)
    else if suitName0.take 2 = ['.', '.'] then
      if st.prevSuit = [] then
        .error ((("Cannot use .. in suit name at line ").toList ++ natToChars lineNum), st)
      else
        let cs := st.prevSuit ++ suitName0.drop 2
        let suits2 := if containsA st.deckSt.table cs then st.deckSt.suits
                      else st.deckSt.suits ++ [cs]
        .ok { st with currSuit := cs,
                      deckSt := { st.deckSt with suits := suits2 },
                      locals := [] }
    else
      let suits2 := if containsA st.deckSt.table suitName0 then st.deckSt.suits
                    else st.deckSt.suits ++ [suitName0]
      .ok { st with currSuit := suitName0,
                    prevSuit := suitName0,
                    deckSt := { st.deckSt with suits := suits2 },
                    locals := [] }

/-- Running quote parity: does a comma occur outside double quotes
(deck.cpp lines 234-252)? -/
def commaOutsideQuotesAux (inQ : Bool) : Str → Bool
  | [] => false
  | c :: t =>
    if c == '"' then commaOutsideQuotesAux (!inQ) t
    else if c == ',' && !inQ then true
    else commaOutsideQuotesAux inQ t

/-- Entry point of the unbracketed-vector comma check. -/
def commaOutsideQuotes (s : Str) : Bool := commaOutsideQuotesAux false s

/-- Comma split ignoring commas inside quotes (deck.cpp lines 292-310): a
comma outside quotes pushes the current segment even when empty; the
trailing segment is pushed only when nonempty. -/
def splitCQAux (inQ : Bool) (current : Str) : Str → List Str
  | [] => if current = [] then [] else [current]
  | c :: t =>
    if c == '"' then splitCQAux (!inQ) (current ++ [c]) t
    else if c == ',' && !inQ then current :: splitCQAux inQ [] t
    else splitCQAux inQ (current ++ [c]) t

/-- Entry point of the quote-aware comma split. -/
def splitCommasQuoted (s : Str) : List Str := splitCQAux false [] s

/-- Bracket classification of one side of an assignment (deck.cpp lines
206-229): ok false when there is no opening bracket, ok true when a
closing bracket follows the first opening one, error when the closing
bracket is missing (fatal). -/
def vecCheck (s : Str) : Except Unit Bool :=
  let pre := s.takeWhile (fun c => !(c == '['))
  if pre.length = s.length then .ok false
  else if ((s.drop pre.length).drop 1).contains ']' then .ok true
  else .error ()

/-- One element of the vector-literal loop (deck.cpp lines 312-331):
trim the element, reject an empty one, and bind the indexed names. -/
def vecLitStep (lineNum : Nat) (globalName localName : Str) (p : CState × Nat) (v : Str) :
    Except (Str × CState) (CState × Nat) :=
  match RemoveWhitespacePreserveQuotes v lineNum with
  | .error e => .error (e, p.1)
  | .ok v2 =>
    match EmptyCheck v2 lineNum with
    | .error e => .error (e, p.1)
    | .ok _ =>
      match bindExpr p.1 lineNum (globalName ++ '[' :: (natToChars p.2 ++ [']']))
          (localName ++ '[' :: (natToChars p.2 ++ [']'])) v2 with
      | .error e => .error e
      | .ok st2 => .ok (st2, p.2 + 1)

/-- The vector-literal branch (deck.cpp lines 282-331): strip the outer
brackets when present, split on unquoted commas, and bind one indexed
name per element. -/
def handleVecLit (st : CState) (lineNum : Nat) (globalName localName cardValue : Str) :
    Except (Str × CState) CState :=
  let cv :=
    let pre := cardValue.takeWhile (fun c => !(c == '['))
    if pre.length = cardValue.length then cardValue
    else ((cardValue.drop pre.length).drop 1).takeWhile (fun c => !(c == ']'))
  match (splitCommasQuoted cv).foldlM (vecLitStep lineNum globalName localName) (st, 0) with
  | .error e => .error e
  | .ok p => .ok p.1

/-- The slice branch (deck.cpp lines 332-364): both sides are expanded by
SplitString (the right side first, whose element count becomes the left
maximum), more names than values is fatal, and the pairs are bound
positionally. -/
def handleSlice (st : CState) (lineNum : Nat) (namePfx localName cardValue : Str) :
    Except (Str × CState) CState :=
  match SplitString cardValue lineNum (-1) with
  | .error e => .error (e, st)
  | .ok cardValues =>
    match SplitString localName lineNum (Int.ofNat cardValues.length) with
    | .error e => .error (e, st)
    | .ok cardNames =>
      if cardValues.length < cardNames.length then
        .error ((("More card names than values at line ").toList ++ natToChars lineNum), st)
      else
        (cardNames.zip cardValues).foldlM (fun stAcc p =>
          bindExpr stAcc lineNum (namePfx ++ p.1) p.1 p.2) st

/-- Trim plain spaces from both ends. -/
def trimSp (s : Str) : Str :=
  ((s.dropWhile (fun c => c == ' ')).reverse.dropWhile (fun c => c == ' ')).reverse

/-- The trailing-comment bookkeeping of the CompileInput loop (deck.cpp
lines 79-94): when a comment marker is present, the comment text after it
(with continuation markers removed and trimmed) is appended to the
pending comment on a continuation line and replaces it otherwise. -/
def commentStep (st : CState) (line body : Str) : CState :=
  if body.length = line.length then st
  else
    let tc0 := (line.drop body.length).drop 1
    let tc := RemoveTrailingWhitespace (RemoveLeadingWhitespace
      (tc0.filter (fun c => !(c == '&'))))
    if st.lineCont && !(tc = []) then { st with comment := st.comment ++ ' ' :: tc }
    else if !st.lineCont then { st with comment := tc }
    else st

/-- The multiline close of the CompileInput loop (deck.cpp lines 111-125):
an open multiline is fused with the current content, space-joined, and the
buffer is reset. -/
def fuseStep (st : CState) (content0 : Str) : Str × CState :=
  if st.lineCont then (st.multiline ++ ' ' :: content0, { st with multiline := [], lineCont := false })
  else (content0, st)

/-- One iteration of the while loop of Deck::CompileInput (deck.cpp lines
68-366).  The C++ tracks absolute character indices; the model works on
the trimmed logical line, which is equivalent because every character
outside the trimmed region is a plain space. -/
def processLine (st : CState) (lineNum : Nat) (raw : Str) : Except (Str × CState) CState :=
  let line := raw.filter (fun c => !(isCppSpace c && !(c == ' ')))
  if line = [] then .ok st
  else if line.dropWhile (fun c => c == ' ') = [] then .ok st
  else if (line.dropWhile (fun c => c == ' ')).take 1 = ['#'] then .ok st
  else
    let body := line.takeWhile (fun c => !(c == '#'))
    let st1 := commentStep st line body
    let content0 := trimSp body
    if content0 = [] then .ok st1
    else if content0.getLast? = some '&' then
      if st1.lineCont then .ok { st1 with multiline := st1.multiline ++ ' ' :: content0.dropLast }
      else .ok { st1 with multiline := content0.dropLast, lineCont := true }
    else
      let content := (fuseStep st1 content0).1
      let st2 := (fuseStep st1 content0).2
      if content.take 1 = ['<'] then handleHeader st2 lineNum content
      else
        let pre := content.takeWhile (fun c => !(c == '='))
        if pre.length = content.length then
          match interpret content st2.locals st2.globals with
          | .ok g2 => .ok { st2 with globals := g2 }
          | .error _ =>
            .error ((("Failed to compile expression ").toList ++ content
              ++ (" at line ").toList ++ natToChars lineNum
              ++ (". Possibly missing = in card declaration.").toList), st2)
        else
          let localName := RemoveWhitespace pre
          match EmptyCheck localName lineNum with
          | .error e => .error (e, st2)
          | .ok _ =>
          let cardValue0 := content.drop (pre.length + 1)
          match EmptyCheck cardValue0 lineNum with
          | .error e => .error (e, st2)
          | .ok _ =>
          match RemoveWhitespacePreserveQuotes cardValue0 lineNum with
          | .error e => .error (e, st2)
          | .ok cardValue =>
          match EmptyCheck cardValue lineNum with
          | .error e => .error (e, st2)
          | .ok _ =>
          let scn := st2.currSuit.map (fun c => if c == '/' then '.' else c)
          let namePfx := if st2.currSuit = [] then ([] : Str) else scn ++ ['.']
          let globalName := if st2.currSuit = [] then localName else namePfx ++ localName
          match vecCheck localName with
          | .error _ =>
            .error ((("Missing closing bracket in vector declaration at line ").toList
              ++ natToChars lineNum), st2)
          | .ok lhsVec =>
            match vecCheck cardValue with
            | .error _ =>
              .error ((("Missing closing bracket in vector declaration at line ").toList
                ++ natToChars lineNum), st2)
            | .ok rhsVecBr =>
              if localName.contains ',' then
                .error ((("Cannot have comma in card name at line ").toList
                  ++ natToChars lineNum), st2)
              else
                if !(cardValue.contains ':' || localName.contains ':')
                    && ((!lhsVec && !(rhsVecBr || commaOutsideQuotes cardValue))
                      || (lhsVec && !(rhsVecBr || commaOutsideQuotes cardValue))
                      || ((lhsVec || (rhsVecBr || commaOutsideQuotes cardValue))
                        && !(cardValue.contains ','))) then
                  bindExpr st2 lineNum globalName localName cardValue
                else if !lhsVec && (rhsVecBr || commaOutsideQuotes cardValue) then
                  handleVecLit st2 lineNum globalName localName cardValue
                else
                  handleSlice st2 lineNum namePfx localName cardValue

/-- Deck::CompileInput over the remaining input lines. -/
def CompileInput (st : CState) (lineNum : Nat) : List Str → Except (Str × CState) CState
  | [] => .ok st
  | l :: ls =>
    match processLine st lineNum l with
    | .error e => .error e
    | .ok st2 => CompileInput st2 (lineNum + 1) ls

/-- The reseed loop of Deck::Build (deck.cpp lines 380-398): every stored
entry is written into the evaluator global table under its qualified
name.  Note the source rewrites the path separator to an underscore here
(line 390), not to the dot used by CompileInput. -/
def seedFromTable (tbl : List (Str × List (Str × Card))) :
    List (Str × Value) × List (Str × Int) × List (Str × Str) :=
  tbl.foldl (fun acc suitPair =>
    suitPair.2.foldl (fun acc2 cardPair =>
      let key :=
        if suitPair.1 = ['/'] then cardPair.1
        else (suitPair.1.map (fun c => if c == '/' then '_' else c)) ++ '.' :: cardPair.1
      (insertA acc2.1 key cardPair.2.value,
       insertA acc2.2.1 key cardPair.2.loc,
       insertA acc2.2.2 key cardPair.2.comment)) acc) ([], [], [])

/-- The suit and card name derived from one evaluator global (deck.cpp
lines 406-416): split at the last dot, none meaning the root suit, and
restore dots to path separators in the suit part. -/
def deriveSuitCard (key : Str) : Str × Str :=
  let revPre := key.reverse.takeWhile (fun c => !(c == '.'))
  if revPre.length = key.length then (['/'], key)
  else
    let name := revPre.reverse
    let suit0 := key.take (key.length - revPre.length - 1)
    (suit0.map (fun c => if c == '.' then '/' else c), name)

/-- The harvest loop of Deck::Build (deck.cpp lines 403-418): every
evaluator global becomes a Card copied into the store, with its recorded
location and comment (defaulting to 0 and empty via map::operator[]). -/
def harvest (d : Deck) (st : CState) : Deck :=
  st.globals.foldl (fun dk g =>
    let sc := deriveSuitCard g.1
    let loc := (lookupA st.locations g.1).getD 0
    let cmt := (lookupA st.comments g.1).getD []
    CopyCard dk (Card.make sc.1 sc.2 g.2 cmt loc)) d

/-- A Build outcome: the resulting Deck, or a fatal diagnostic together
with the Deck members as they stood at the abort. -/
inductive BuildResult where
  | ok (d : Deck)
  | fatal (msg : Str) (d : Deck)
  deriving DecidableEq

/-- Deck::Build(std::istream) (deck.cpp lines 369-419) on a list of input
lines: reseed the evaluator from the store, run CompileInput, then
rebuild the store from the evaluator global table. -/
def Build (d : Deck) (lines : List Str) : BuildResult :=
  let s := seedFromTable d.table
  let st0 : CState := ⟨d, [], s.1, s.2.1, s.2.2, [], [], false, [], []⟩
  match CompileInput st0 0 lines with
  | .error e => .fatal e.1 e.2.deckSt
  | .ok st => .ok (harvest st.deckSt st)

/-- Entry lookup through both table levels. -/
def lookup2 (d : Deck) (suit name : Str) : Option Card :=
  match lookupA d.table suit with
  | none => none
  | some m => lookupA m name

/-- The concrete deck used to exercise FindSuitFuzzy. -/
def fuzzyDeck : Deck := AddCard Deck.emptyDeck ("ab").toList ("x").toList (Value.num 1) []

/-- The Deck members carried by a Build outcome. -/
def BuildResult.deckOf : BuildResult → Deck
  | .ok d => d
  | .fatal _ d => d

/-- Input whose new suit header appears twice in one Build. -/
def dupSuitLines : List Str :=
  [("<s>").toList, ("x = 1").toList, ("<t>").toList, ("<s>").toList, ("y = 2").toList]

/-- Input declaring one card in a path-like suit name. -/
def slashSuitLines : List Str := [("<a/b>").toList, ("x = 1").toList]

/-- Deck with a suit registered through a Build header, used against the
copy-assignment claim. -/
def c10TargetDeck : Deck := (Build Deck.emptyDeck [("<b>").toList, ("x = 1").toList]).deckOf

/-- Second built deck, the source of the copy. -/
def c10SourceDeck : Deck := (Build Deck.emptyDeck [("<a>").toList, ("y = 2").toList]).deckOf

/-- Input of the slice zip truncation example of the claim. -/
def sliceExampleLines : List Str := [("a = [1,2,3]").toList, ("b[:2] = a[:3]").toList]

/-- The concrete deck used to exercise the failed-GetCard mutation. -/
def getCardDeck : Deck := AddCard Deck.emptyDeck ("s").toList ("a").toList (Value.num 1) []

/-- A relative suit-header line: the name prefixed by the two dots,
wrapped in the angle brackets. -/
def relLine (s : Str) : Str := '<' :: '.' :: '.' :: (s ++ ['>'])

/-- A suit-name fragment that survives the line normalizer untouched: it
is nonempty and free of whitespace, comment markers and the closing
angle bracket. -/
def goodName (s : Str) : Prop :=
  s ≠ [] ∧ ∀ c ∈ s, isCppSpace c = false ∧ c ≠ '#' ∧ c ≠ '>'

/-- A compiler state with a declared non-relative anchor suit. -/
def relHeaderSt : CState :=
  ⟨Deck.emptyDeck, [], [], [], [], [], [], false, ("outer").toList, ("outer").toList⟩

/-- A fresh compiler state with no anchor suit declared yet. -/
def relHeaderSt0 : CState := ⟨Deck.emptyDeck, [], [], [], [], [], [], false, [], []⟩

/-- The table part of a Deck is fully initialized when every stored card
has its initialized flag set. -/
def AllInitT (tbl : List (Str × List (Str × Card))) : Prop :=
  ∀ p ∈ tbl, ∀ q ∈ p.2, (q.2 : Card).initialized = true

/-- Claim C6 invariant: every entry of the table holds a value. -/
def AllInit (d : Deck) : Prop := AllInitT d.table

/-- The mutating store operations quantified over by claims C3 and C6. -/
inductive DeckOp where
  | add (suit name : Str) (v : Value) (comment : Str)
  | update (suit name : Str) (v : Value) (comment : Str)
  | remove (suit name : Str)
  | getOrAdd (suit name : Str) (v : Value) (comment : Str)
  | buildOp (lines : List Str)
  deriving DecidableEq

/-- Apply one operation; none models the fatal (aborting) paths, which
leave no observable successor state. -/
def applyOp (d : Deck) : DeckOp → Option Deck
  | .add s n v c => some (AddCard d s n v c)
  | .update s n v c =>
    match UpdateCard d s n v c with
    | (.ok _, d2) => some d2
    | (.error _, _) => none
  | .remove s n =>
    match RemoveCard d s n with
    | (.ok _, d2) => some d2
    | (.error _, _) => none
  | .getOrAdd s n v c =>
    match GetOrAddCardValue d s n v c with
    | (.ok _, d2) => some d2
    | (.error _, _) => none
  | .buildOp lines =>
    match Build d lines with
    | .ok d2 => some d2
    | .fatal _ _ => none

/-- Apply a sequence of operations. -/
def applyOps : Deck → List DeckOp → Option Deck
  | d, [] => some d
  | d, op :: ops =>
    match applyOp d op with
    | none => none
    | some d2 => applyOps d2 ops

/-- A Deck state reachable from the empty Deck through the mutating
operations. -/
def Reachable (d : Deck) : Prop := ∃ ops, applyOps Deck.emptyDeck ops = some d

/-- A CompileInput step result whose carried state has table T, whether
it succeeded or aborted. -/
def TableEq (T : List (Str × List (Str × Card))) : Except (Str × CState) CState → Prop
  | .ok st => st.deckSt.table = T
  | .error e => e.2.deckSt.table = T

/-- The pair-state variant of TableEq, for the vector-literal loop. -/
def TableEqP (T : List (Str × List (Str × Card))) :
    Except (Str × CState) (CState × Nat) → Prop
  | .ok p => p.1.deckSt.table = T
  | .error e => e.2.deckSt.table = T

/-! ## Association-list lemmas -/

/-- Lookup after insert-or-assign. -/
theorem lookupA_insertA {α : Type} (l : List (Str × α)) (k k2 : Str) (v : α) :
    lookupA (insertA l k v) k2 = if k = k2 then some v else lookupA l k2 := by
  induction l with
  | nil => rfl
  | cons p t ih =>
    obtain ⟨pk, pv⟩ := p
    by_cases h1 : pk = k
    · subst h1
      simp only [insertA, if_pos rfl, lookupA]
      by_cases h2 : pk = k2
      · simp only [if_pos h2]
      · simp only [if_neg h2]
    · simp only [insertA, if_neg h1, lookupA, ih]
      by_cases h2 : pk = k2
      · have h3 : ¬ k = k2 := fun hk => h1 (h2.trans hk.symm)
        simp only [if_pos h2, if_neg h3]
      · simp only [if_neg h2]

/-- Every pair of an insert-or-assign result is an old pair or the new one. -/
theorem mem_insertA {α : Type} (l : List (Str × α)) (k : Str) (v : α) (p : Str × α)
    (h : p ∈ insertA l k v) : p ∈ l ∨ p = (k, v) := by
  induction l with
  | nil =>
    simp only [insertA, List.mem_singleton] at h
    exact Or.inr h
  | cons q t ih =>
    obtain ⟨qk, qv⟩ := q
    by_cases hq : qk = k
    · simp only [insertA, if_pos hq, List.mem_cons] at h
      rcases h with h | h
      · exact Or.inr (by rw [h, hq])
      · exact Or.inl (List.mem_cons_of_mem _ h)
    · simp only [insertA, if_neg hq, List.mem_cons] at h
      rcases h with h | h
      · exact Or.inl (List.mem_cons.mpr (Or.inl h))
      · rcases ih h with h2 | h2
        · exact Or.inl (List.mem_cons_of_mem _ h2)
        · exact Or.inr h2

/-- Erase only removes pairs. -/
theorem mem_eraseA {α : Type} (l : List (Str × α)) (k : Str) (p : Str × α)
    (h : p ∈ eraseA l k) : p ∈ l := by
  induction l with
  | nil =>
    simp only [eraseA] at h
    exact h
  | cons q t ih =>
    obtain ⟨qk, qv⟩ := q
    by_cases hq : qk = k
    · simp only [eraseA, if_pos hq] at h
      exact List.mem_cons_of_mem _ h
    · simp only [eraseA, if_neg hq, List.mem_cons] at h
      rcases h with h | h
      · exact List.mem_cons.mpr (Or.inl h)
      · exact List.mem_cons_of_mem _ (ih h)

/-- A successful lookup is a member. -/
theorem lookupA_mem {α : Type} (l : List (Str × α)) (k : Str) (v : α)
    (h : lookupA l k = some v) : (k, v) ∈ l := by
  induction l with
  | nil => simp [lookupA] at h
  | cons q t ih =>
    obtain ⟨qk, qv⟩ := q
    by_cases hq : qk = k
    · simp only [lookupA, if_pos hq, Option.some.injEq] at h
      exact List.mem_cons.mpr (Or.inl (by rw [hq, h]))
    · simp only [lookupA, if_neg hq] at h
      exact List.mem_cons_of_mem _ (ih h)

/-- The pointwise effect of AddCard on the table. -/
theorem lookup2_AddCard (d : Deck) (suit name : Str) (v : Value) (c : Str) (s2 n2 : Str) :
    lookup2 (AddCard d suit name v c) s2 n2 =
      if s2 = suit ∧ n2 = name then some (Card.make suit name v c (-1))
      else lookup2 d s2 n2 := by
  by_cases hs : s2 = suit
  · subst hs
    by_cases hn : n2 = name
    · subst hn
      simp [AddCard, lookup2, lookupA_insertA]
    · have h1 : ¬ name = n2 := fun h => hn h.symm
      have h2 : ¬ (s2 = s2 ∧ n2 = name) := fun hc => hn hc.2
      cases hm : lookupA d.table s2 with
      | none => simp [AddCard, lookup2, lookupA_insertA, hm, h1, h2, hn, lookupA]
      | some m => simp [AddCard, lookup2, lookupA_insertA, hm, h1, h2, hn]
  · have h1 : ¬ suit = s2 := fun h => hs h.symm
    have h2 : ¬ (s2 = suit ∧ n2 = name) := fun hc => hs hc.1
    simp [AddCard, lookup2, lookupA_insertA, h1, h2]

/-- AddCard leaves the suit registry alone. -/
theorem AddCard_suits (d : Deck) (suit name : Str) (v : Value) (c : Str) :
    (AddCard d suit name v c).suits = d.suits := rfl

/-! ## C1: FindSuitFuzzy -/

/-- A pattern with no star makes removeFirstStar fail. -/
theorem removeFirstStar_none (s : Str) (h : ('*') ∉ s) : removeFirstStar s = none := by
  induction s with
  | nil => rfl
  | cons c t ih =>
    simp only [List.mem_cons, not_or] at h
    simp [removeFirstStar, Ne.symm h.1, ih h.2]

/-- removeFirstStar erases exactly the first star. -/
theorem removeFirstStar_first (a b : Str) (ha : ('*') ∉ a) :
    removeFirstStar (a ++ '*' :: b) = some (a ++ b) := by
  induction a with
  | nil => simp [removeFirstStar]
  | cons c t ih =>
    simp only [List.mem_cons, not_or] at ha
    simp [removeFirstStar, Ne.symm ha.1, ih ha.2]

/-- The suit loop of FindSuitFuzzy is the concatenation of the entries of
the substring-matching suits, in table order. -/
theorem fuzzyCollect_eq (tbl : List (Str × List (Str × Card))) (pat : Str) :
    fuzzyCollect tbl pat =
      ((tbl.filter (fun e => containsSub e.1 pat)).map (fun e => e.2.map (fun q => q.2))).flatten := by
  induction tbl with
  | nil => rfl
  | cons e t ih =>
    obtain ⟨sn, m⟩ := e
    by_cases h : containsSub sn pat <;> simp [fuzzyCollect, List.filter, h, ih]

/-- C1 (amended): FindSuitFuzzy erases only the first star of the pattern
(the root sentinel pattern is exempt from stripping), fails on a
non-root pattern that has no star, and otherwise returns the
concatenation of the entries of every suit whose name contains the
stripped pattern as a case-sensitive substring (the empty concatenation,
with a non-fatal stderr diagnostic, when no suit matches). -/
theorem C1_amended (d : Deck) (pat : Str) :
    (pat = ['/'] →
      FindSuitFuzzy d pat =
        .ok (((d.table.filter (fun e => containsSub e.1 pat)).map
          (fun e => e.2.map (fun q => q.2))).flatten)) ∧
    (pat ≠ ['/'] → ('*') ∉ pat → (FindSuitFuzzy d pat).isOk = false) ∧
    (∀ a b, pat = a ++ '*' :: b → ('*') ∉ a → pat ≠ ['/'] →
      FindSuitFuzzy d pat =
        .ok (((d.table.filter (fun e => containsSub e.1 (a ++ b))).map
          (fun e => e.2.map (fun q => q.2))).flatten)) := by
  refine ⟨fun h => ?_, fun h hstar => ?_, fun a b hab ha h => ?_⟩
  · simp [FindSuitFuzzy, if_pos h, fuzzyCollect_eq]
  · simp [FindSuitFuzzy, if_neg h, removeFirstStar_none pat hstar, Except.isOk, Except.toBool]
  · subst hab
    simp [FindSuitFuzzy, if_neg h, removeFirstStar_first a b ha, fuzzyCollect_eq]

/-- C1 counterexample: on a deck with suit ab, the claim predicts that
pattern x (no star anywhere) returns an empty result and that pattern **
(both stars stripped) returns every entry; the code instead fails on x
and strips only one star of **, matching nothing. -/
theorem C1_counterexample :
    (FindSuitFuzzy fuzzyDeck ("x").toList).toOption
      ≠ some (FindSuitFuzzyClaim fuzzyDeck ("x").toList) ∧
    (FindSuitFuzzy fuzzyDeck ("**").toList).toOption
      ≠ some (FindSuitFuzzyClaim fuzzyDeck ("**").toList) := by
  decide

/-- C1 witness: the amended theorem applied to the concrete deck, for the
root pattern, a starless pattern, and a two-star pattern. -/
theorem C1_witness :
    FindSuitFuzzy fuzzyDeck ("/").toList = .ok [] ∧
    (FindSuitFuzzy fuzzyDeck ("x").toList).isOk = false ∧
    FindSuitFuzzy fuzzyDeck ("*b*").toList =
      .ok (((fuzzyDeck.table.filter (fun e => containsSub e.1 (("b*").toList))).map
        (fun e => e.2.map (fun q => q.2))).flatten) := by
  refine ⟨?_, ?_, ?_⟩
  · exact ((C1_amended fuzzyDeck (("/").toList)).1 (by decide)).trans (by rfl)
  · exact (C1_amended fuzzyDeck (("x").toList)).2.1 (by decide) (by decide)
  · exact (C1_amended fuzzyDeck (("*b*").toList)).2.2 [] (("b*").toList) (by rfl)
      (by decide) (by decide)

/-! ## C4: AddCard -/

/-- C4 (amended): AddCard creates the suit in the table when it is absent
and inserts the entry, but does not register the suit in suits_in_order;
an existing entry with the same suit and name is overwritten without any
uniqueness error (last write wins), and no other entry changes. -/
theorem C4_amended (d : Deck) (suit name : Str) (v : Value) (c : Str) (s2 n2 : Str) :
    (AddCard d suit name v c).suits = d.suits ∧
    DoesSuitExist (AddCard d suit name v c) suit = true ∧
    lookup2 (AddCard d suit name v c) s2 n2 =
      (if s2 = suit ∧ n2 = name then some (Card.make suit name v c (-1))
       else lookup2 d s2 n2) := by
  refine ⟨rfl, ?_, lookup2_AddCard d suit name v c s2 n2⟩
  simp [DoesSuitExist, AddCard, containsA, lookupA_insertA]

/-- C4 counterexample: adding a card to an absent suit creates the suit
in the table but does not register it in suits_in_order, contrary to the
claim. -/
theorem C4_counterexample :
    containsA (AddCard Deck.emptyDeck ("s").toList ("a").toList (Value.num 1) []).table
      ("s").toList = true ∧
    ¬ (("s").toList ∈ (AddCard Deck.emptyDeck ("s").toList ("a").toList (Value.num 1) []).suits) := by
  decide

/-! ## C9: GetOrAddCardValue -/

/-- On a missing entry both branches of GetOrAddCardValue reduce to an
AddCard insertion that returns the supplied default. -/
theorem getOrAdd_miss (d : Deck) (suit name : Str) (v : Value) (c : Str)
    (h : lookup2 d suit name = none) :
    GetOrAddCardValue d suit name v c = (.ok v, AddCard d suit name v c) := by
  unfold GetOrAddCardValue
  rcases hm : lookupA d.table suit with _ | m
  · simp [containsA, hm]
  · have hc : containsA d.table suit = true := by simp [containsA, hm]
    simp only [lookup2, hm] at h
    simp [hc, hm, h, AddCard]

/-- On an existing initialized entry GetOrAddCardValue decodes the stored
value and leaves the deck alone. -/
theorem getOrAdd_hit (d : Deck) (suit name : Str) (v : Value) (c : Str) (card : Card)
    (h : lookup2 d suit name = some card) (hi : card.initialized = true) :
    GetOrAddCardValue d suit name v c = (card.GetAs v.kind, d) := by
  unfold GetOrAddCardValue
  rcases hm : lookupA d.table suit with _ | m
  · simp [lookup2, hm] at h
  · simp only [lookup2, hm] at h
    simp [containsA, hm, h, GetCard, hi]

/-- Decoding at the stored kind is the identity. -/
theorem GetAs_same_kind (c : Card) (k : ValueKind) (h : c.value.kind = k) :
    c.GetAs k = .ok c.value := by
  cases hv : c.value <;> subst h <;> simp [Card.GetAs, hv, Value.kind]

/-- C9 (as claimed): on a missing suit/name pair the first call stores
its default and returns it, a second call with any same-kind default
returns the first default and changes nothing, exactly one entry is
created, and on an existing initialized same-kind entry the call returns
the stored value and leaves the Deck unchanged. -/
theorem C9_idempotent :
    (∀ (d : Deck) (suit name : Str) (v1 v2 : Value) (c1 c2 : Str),
      lookup2 d suit name = none → v1.kind = v2.kind →
      (GetOrAddCardValue d suit name v1 c1).1 = .ok v1 ∧
      GetOrAddCardValue ((GetOrAddCardValue d suit name v1 c1).2) suit name v2 c2
        = (.ok v1, (GetOrAddCardValue d suit name v1 c1).2) ∧
      lookup2 ((GetOrAddCardValue d suit name v1 c1).2) suit name
        = some (Card.make suit name v1 c1 (-1)) ∧
      (∀ s2 n2, ¬(s2 = suit ∧ n2 = name) →
        lookup2 ((GetOrAddCardValue d suit name v1 c1).2) s2 n2 = lookup2 d s2 n2) ∧
      ((GetOrAddCardValue d suit name v1 c1).2).suits = d.suits) ∧
    (∀ (d : Deck) (suit name : Str) (v : Value) (c : Str) (card : Card),
      lookup2 d suit name = some card → card.initialized = true →
      card.value.kind = v.kind →
      GetOrAddCardValue d suit name v c = (.ok card.value, d)) := by
  constructor
  · intro d suit name v1 v2 c1 c2 hmiss hkind
    rw [getOrAdd_miss d suit name v1 c1 hmiss]
    have hlook : lookup2 (AddCard d suit name v1 c1) suit name
        = some (Card.make suit name v1 c1 (-1)) := by
      rw [lookup2_AddCard]; simp
    refine ⟨rfl, ?_, hlook, ?_, rfl⟩
    · rw [getOrAdd_hit (AddCard d suit name v1 c1) suit name v2 c2
        (Card.make suit name v1 c1 (-1)) hlook rfl,
        GetAs_same_kind _ _ (by simpa [Card.make] using hkind)]
      rfl
    · intro s2 n2 hne
      rw [lookup2_AddCard, if_neg hne]
  · intro d suit name v c card h hi hk
    rw [getOrAdd_hit d suit name v c card h hi, GetAs_same_kind _ _ hk]

/-- C9 witness: the theorem applied to a concrete empty deck (missing
entry, two different same-kind defaults) and to the deck that first call
produced (existing entry). -/
theorem C9_witness :
    (GetOrAddCardValue Deck.emptyDeck ("s").toList ("a").toList (Value.num 3) []).1
      = .ok (Value.num 3) ∧
    GetOrAddCardValue ((GetOrAddCardValue Deck.emptyDeck ("s").toList ("a").toList
        (Value.num 3) []).2) ("s").toList ("a").toList (Value.num 7) []
      = (.ok (Value.num 3),
         (GetOrAddCardValue Deck.emptyDeck ("s").toList ("a").toList (Value.num 3) []).2) := by
  have h := (C9_idempotent.1 Deck.emptyDeck (("s").toList) (("a").toList)
    (Value.num 3) (Value.num 7) [] [] (by decide) (by decide))
  exact ⟨h.1, h.2.1⟩

/-! ## C2: a fatal Build leaves the table unchanged -/

/-- A table equality can be transported along TableEq. -/
theorem TableEq_congr (T1 T2 : List (Str × List (Str × Card)))
    (e : Except (Str × CState) CState) (h : T1 = T2) (he : TableEq T1 e) : TableEq T2 e :=
  h ▸ he

/-- A table equality can be transported along TableEqP. -/
theorem TableEqP_congr (T1 T2 : List (Str × List (Str × Card)))
    (e : Except (Str × CState) (CState × Nat)) (h : T1 = T2) (he : TableEqP T1 e) :
    TableEqP T2 e :=
  h ▸ he

/-- bindExpr never touches the table. -/
theorem bindExpr_table (st : CState) (n : Nat) (gn ln rhs : Str) :
    TableEq st.deckSt.table (bindExpr st n gn ln rhs) := by
  simp only [bindExpr]
  cases interpret (gn ++ (" = ").toList ++ rhs) st.locals st.globals with
  | error e => exact rfl
  | ok g2 => exact rfl

/-- handleHeader never touches the table. -/
theorem handleHeader_table (st : CState) (n : Nat) (content : Str) :
    TableEq st.deckSt.table (handleHeader st n content) := by
  simp only [handleHeader]
  repeat' split
  all_goals rfl

/-- One vector-literal element never touches the table. -/
theorem vecLitStep_table (n : Nat) (gn ln : Str) (p : CState × Nat) (v : Str) :
    TableEqP p.1.deckSt.table (vecLitStep n gn ln p v) := by
  unfold vecLitStep
  cases RemoveWhitespacePreserveQuotes v n with
  | error e => exact rfl
  | ok v2 =>
    dsimp only
    cases EmptyCheck v2 n with
    | error e => exact rfl
    | ok u =>
      dsimp only
      have h := bindExpr_table p.1 n (gn ++ '[' :: (natToChars p.2 ++ [']']))
        (ln ++ '[' :: (natToChars p.2 ++ [']'])) v2
      revert h
      cases bindExpr p.1 n (gn ++ '[' :: (natToChars p.2 ++ [']']))
          (ln ++ '[' :: (natToChars p.2 ++ [']'])) v2 with
      | error e => intro h; exact h
      | ok st2 => intro h; exact h

/-- Folding table-preserving pair steps preserves the table. -/
theorem foldlM_table_pair {β : Type} (T : List (Str × List (Str × Card)))
    (f : (CState × Nat) → β → Except (Str × CState) (CState × Nat))
    (hf : ∀ s b, s.1.deckSt.table = T → TableEqP T (f s b)) :
    ∀ (l : List β) (s : CState × Nat), s.1.deckSt.table = T → TableEqP T (l.foldlM f s) := by
  intro l
  induction l with
  | nil => intro s hs; exact hs
  | cons b t ih =>
    intro s hs
    simp only [List.foldlM]
    have h := hf s b hs
    revert h
    cases f s b with
    | error e => intro h; exact h
    | ok s2 => intro h; exact ih s2 h

/-- Folding table-preserving state steps preserves the table. -/
theorem foldlM_table {β : Type} (T : List (Str × List (Str × Card)))
    (f : CState → β → Except (Str × CState) CState)
    (hf : ∀ s b, s.deckSt.table = T → TableEq T (f s b)) :
    ∀ (l : List β) (s : CState), s.deckSt.table = T → TableEq T (l.foldlM f s) := by
  intro l
  induction l with
  | nil => intro s hs; exact hs
  | cons b t ih =>
    intro s hs
    simp only [List.foldlM]
    have h := hf s b hs
    revert h
    cases f s b with
    | error e => intro h; exact h
    | ok s2 => intro h; exact ih s2 h

/-- The match wrapper of the vector-literal loop preserves the table. -/
theorem handleVecLit_table_aux (T : List (Str × List (Str × Card))) (n : Nat) (gn ln : Str)
    (vs : List Str) (s : CState × Nat) (hs : s.1.deckSt.table = T) :
    TableEq T (match vs.foldlM (vecLitStep n gn ln) s with
               | .error e => .error e
               | .ok p => .ok p.1) := by
  have h := foldlM_table_pair T (vecLitStep n gn ln)
    (fun s2 b hs2 => TableEqP_congr _ _ _ hs2 (vecLitStep_table n gn ln s2 b)) vs s hs
  revert h
  cases vs.foldlM (vecLitStep n gn ln) s with
  | error e => intro h; exact h
  | ok p => intro h; exact h

/-- The vector-literal branch never touches the table. -/
theorem handleVecLit_table (st : CState) (n : Nat) (gn ln cv : Str) :
    TableEq st.deckSt.table (handleVecLit st n gn ln cv) := by
  simp only [handleVecLit]
  exact handleVecLit_table_aux st.deckSt.table n gn ln _ (st, 0) rfl

/-- The slice branch never touches the table. -/
theorem handleSlice_table (st : CState) (n : Nat) (pfx ln cv : Str) :
    TableEq st.deckSt.table (handleSlice st n pfx ln cv) := by
  unfold handleSlice
  cases SplitString cv n (-1) with
  | error e => exact rfl
  | ok cardValues =>
    dsimp only
    cases SplitString ln n (Int.ofNat cardValues.length) with
    | error e => exact rfl
    | ok cardNames =>
      dsimp only
      by_cases hlt : cardValues.length < cardNames.length
      · simp only [if_pos hlt]
        exact rfl
      · simp only [if_neg hlt]
        exact foldlM_table st.deckSt.table _
          (fun s2 b hs2 => TableEq_congr _ _ _ hs2 (bindExpr_table s2 n (pfx ++ b.1) b.1 b.2))
          (cardNames.zip cardValues) st rfl

/-- commentStep only touches the pending comment. -/
theorem commentStep_deckSt (st : CState) (a b : Str) :
    (commentStep st a b).deckSt = st.deckSt := by
  unfold commentStep
  lift_lets
  extract_lets
  repeat' split
  all_goals rfl

/-- fuseStep only touches the multiline buffer and the flag. -/
theorem fuseStep_deckSt (st : CState) (c : Str) : (fuseStep st c).2.deckSt = st.deckSt := by
  unfold fuseStep
  split
  all_goals rfl

set_option maxHeartbeats 2000000 in
/-- One CompileInput iteration never touches the table. -/
theorem processLine_table (st : CState) (n : Nat) (raw : Str) :
    TableEq st.deckSt.table (processLine st n raw) := by
  unfold processLine
  lift_lets
  extract_lets
  repeat' split
  all_goals (try unfold_let)
  all_goals (first
    | rfl
    | exact TableEq_congr _ _ _
        (by simp [fuseStep_deckSt, commentStep_deckSt]) (handleHeader_table _ _ _)
    | exact TableEq_congr _ _ _
        (by simp [fuseStep_deckSt, commentStep_deckSt]) (bindExpr_table _ _ _ _ _)
    | exact TableEq_congr _ _ _
        (by simp [fuseStep_deckSt, commentStep_deckSt]) (handleVecLit_table _ _ _ _ _)
    | exact TableEq_congr _ _ _
        (by simp [fuseStep_deckSt, commentStep_deckSt]) (handleSlice_table _ _ _ _ _)
    | (simp [TableEq, commentStep_deckSt, fuseStep_deckSt]; done))

/-- CompileInput never touches the table. -/
theorem CompileInput_table (lines : List Str) : ∀ (st : CState) (n : Nat),
    TableEq st.deckSt.table (CompileInput st n lines) := by
  induction lines with
  | nil => intro st n; exact rfl
  | cons l ls ih =>
    intro st n
    unfold CompileInput
    have h := processLine_table st n l
    revert h
    cases processLine st n l with
    | error e => intro h; exact h
    | ok st2 => intro h; exact TableEq_congr _ _ _ h (ih st2 (n + 1))

/-- C2: when Build hits a fatal condition (malformed header, malformed
assignment, or evaluator rejection), the suit-to-card table observable
afterward is exactly the table from before the failing call, with no
entry compiled from the failing text: CompileInput only reads the store,
which is written solely by the harvest pass after a fully successful
parse. -/
theorem C2_fatal_table_unchanged (d : Deck) (lines : List Str) (msg : Str) (d2 : Deck)
    (h : Build d lines = .fatal msg d2) : d2.table = d.table := by
  simp only [Build] at h
  have ht := CompileInput_table lines ⟨d, [], (seedFromTable d.table).1,
    (seedFromTable d.table).2.1, (seedFromTable d.table).2.2, [], [], false, [], []⟩ 0
  revert h
  rcases hc : CompileInput ⟨d, [], (seedFromTable d.table).1, (seedFromTable d.table).2.1,
      (seedFromTable d.table).2.2, [], [], false, [], []⟩ 0 lines with ⟨e1, e2⟩ | st
  · rw [hc] at ht
    intro h
    simp only [BuildResult.fatal.injEq] at h
    rw [← h.2]
    exact ht
  · intro h
    simp at h

/-- C2 witness: a deck holding one compiled card, rebuilt against text
whose third line has an empty right-hand side; the fatal result carries
the original table even though the new suit was already registered in
the suit list. -/
theorem C2_witness :
    (Deck.mk (AddCard Deck.emptyDeck (("g").toList) (("x").toList) (Value.num 1) []).table
      [['/'], ['s']]).table
      = (AddCard Deck.emptyDeck (("g").toList) (("x").toList) (Value.num 1) []).table :=
  C2_fatal_table_unchanged
    (AddCard Deck.emptyDeck (("g").toList) (("x").toList) (Value.num 1) [])
    [("<s>").toList, ("y = 2").toList, ("z =").toList]
    (("Empty string at line 2").toList)
    (Deck.mk (AddCard Deck.emptyDeck (("g").toList) (("x").toList) (Value.num 1) []).table
      [['/'], ['s']])
    (by decide)

/-! ## C6: initialization invariant and the GetCard mutation -/

/-- Every card of the suit map read through getD is a stored card. -/
theorem suitMap_init (d : Deck) (suit : Str) (hd : AllInit d) :
    ∀ q ∈ (lookupA d.table suit).getD [], (q.2 : Card).initialized = true := by
  intro q hq
  rcases hm : lookupA d.table suit with _ | m0
  · rw [hm] at hq
    simp at hq
  · rw [hm] at hq
    simp only [Option.getD_some] at hq
    exact hd (suit, m0) (lookupA_mem _ _ _ hm) q hq

/-- Replacing one suit map with a fully initialized one keeps the
invariant. -/
theorem AllInit_insertMap (d : Deck) (suit : Str) (m2 : List (Str × Card))
    (hd : AllInit d) (hm2 : ∀ q ∈ m2, (q.2 : Card).initialized = true) :
    AllInitT (insertA d.table suit m2) := by
  intro p hp q hq
  rcases mem_insertA _ _ _ _ hp with hp2 | hp2
  · exact hd p hp2 q hq
  · have h2 : p.2 = m2 := by rw [hp2]
    exact hm2 q (h2 ▸ hq)

/-- Inserting one initialized card into a suit map keeps the invariant. -/
theorem AllInit_addShape (d : Deck) (suit name : Str) (C : Card)
    (hd : AllInit d) (hC : C.initialized = true) :
    AllInitT (insertA d.table suit (insertA ((lookupA d.table suit).getD []) name C)) := by
  apply AllInit_insertMap d suit _ hd
  intro q hq
  rcases mem_insertA _ _ _ _ hq with hq2 | hq2
  · exact suitMap_init d suit hd q hq2
  · rw [hq2]
    exact hC

/-- AddCard keeps the invariant. -/
theorem AllInit_AddCard (d : Deck) (s n : Str) (v : Value) (c : Str) (hd : AllInit d) :
    AllInit (AddCard d s n v c) :=
  AllInit_addShape d s n (Card.make s n v c (-1)) hd rfl

/-- CopyCard keeps the invariant when the card is initialized. -/
theorem AllInit_CopyCard (d : Deck) (c : Card) (hd : AllInit d) (hc : c.initialized = true) :
    AllInit (CopyCard d c) :=
  AllInit_addShape d c.suit c.name c hd hc

/-- A successful GetCard does not mutate the deck. -/
theorem GetCard_ok_deck (d : Deck) (s n : Str) (card : Card)
    (h : (GetCard d s n).1 = .ok card) : (GetCard d s n).2 = d := by
  rcases hm : lookupA d.table s with _ | m
  · simp [GetCard, hm] at h
  · rcases hn : lookupA m n with _ | c2
    · simp [GetCard, hm, hn] at h
    · by_cases hi : c2.initialized = true
      · simp [GetCard, hm, hn, hi]
      · simp [GetCard, hm, hn, hi] at h

/-- A GetCard on an existing suit and missing name fails and inserts a
default-constructed card. -/
theorem GetCard_miss (d : Deck) (s n : Str) (m : List (Str × Card))
    (hm : lookupA d.table s = some m) (hn : lookupA m n = none) :
    GetCard d s n = (.error (("Card not found in suit: ").toList ++ n),
      { d with table := insertA d.table s (insertA m n defaultCard) }) := by
  simp [GetCard, hm, hn]

/-- A successful UpdateCard keeps the invariant. -/
theorem UpdateCard_ok_AllInit (d d2 : Deck) (s n : Str) (v : Value) (c : Str)
    (hd : AllInit d) (h : UpdateCard d s n v c = (.ok (), d2)) : AllInit d2 := by
  rcases hg : GetCard d s n with ⟨r, dg⟩
  rcases r with e | card
  · simp [UpdateCard, hg] at h
  · have h1 : (GetCard d s n).1 = .ok card := by rw [hg]
    have h2 : (GetCard d s n).2 = d := GetCard_ok_deck d s n card h1
    rw [hg] at h2
    simp only at h2
    simp only [UpdateCard, hg, Prod.mk.injEq, true_and] at h
    rw [← h, h2]
    exact AllInit_addShape d s n _ hd rfl

/-- A successful RemoveCard keeps the invariant. -/
theorem RemoveCard_ok_AllInit (d d2 : Deck) (s n : Str)
    (hd : AllInit d) (h : RemoveCard d s n = (.ok (), d2)) : AllInit d2 := by
  rcases hm : lookupA d.table s with _ | m
  · simp [RemoveCard, hm] at h
  · rcases hn : lookupA m n with _ | c
    · simp [RemoveCard, hm, hn] at h
    · simp only [RemoveCard, hm, hn, Prod.mk.injEq, true_and] at h
      rw [← h]
      apply AllInit_insertMap d s _ hd
      intro q hq
      exact hd (s, m) (lookupA_mem _ _ _ hm) q (mem_eraseA _ _ _ hq)

/-- A successful GetOrAddCardValue keeps the invariant. -/
theorem GetOrAdd_ok_AllInit (d d2 : Deck) (s n : Str) (v : Value) (c : Str) (r : Value)
    (hd : AllInit d) (h : GetOrAddCardValue d s n v c = (.ok r, d2)) : AllInit d2 := by
  by_cases hs : containsA d.table s = false
  · simp only [GetOrAddCardValue, hs, if_true, Prod.mk.injEq] at h
    rw [← h.2]
    exact AllInit_AddCard d s n v c hd
  · rcases hn : lookupA ((lookupA d.table s).getD []) n with _ | card
    · simp [GetOrAddCardValue, hs, hn] at h
      rw [← h.2]
      exact AllInit_addShape d s n _ hd rfl
    · rcases hg : GetCard d s n with ⟨rg, dg⟩
      rcases rg with e | card2
      · simp [GetOrAddCardValue, hs, hn, hg] at h
      · have h1 : (GetCard d s n).1 = .ok card2 := by rw [hg]
        have h2 : (GetCard d s n).2 = d := GetCard_ok_deck d s n card2 h1
        rw [hg] at h2
        simp only at h2
        simp [GetOrAddCardValue, hs, hn, hg] at h
        rw [← h.2, h2]
        exact hd

/-- Folding invariant-preserving steps preserves the invariant. -/
theorem AllInit_foldl_generic {β : Type} (f : Deck → β → Deck)
    (hf : ∀ d b, AllInit d → AllInit (f d b)) :
    ∀ (l : List β) (d : Deck), AllInit d → AllInit (l.foldl f d) := by
  intro l
  induction l with
  | nil => intro d hd; exact hd
  | cons b t ih =>
    intro d hd
    exact ih (f d b) (hf d b hd)

/-- The harvest pass keeps the invariant: every harvested card is built
initialized. -/
theorem AllInit_harvest (d : Deck) (st : CState) (hd : AllInit d) : AllInit (harvest d st) := by
  unfold harvest
  exact AllInit_foldl_generic _ (fun dk g hdk => AllInit_CopyCard dk _ hdk rfl) st.globals d hd

/-- A successful Build keeps the invariant. -/
theorem Build_ok_AllInit (d d2 : Deck) (lines : List Str)
    (hd : AllInit d) (h : Build d lines = .ok d2) : AllInit d2 := by
  simp only [Build] at h
  have ht := CompileInput_table lines ⟨d, [], (seedFromTable d.table).1,
    (seedFromTable d.table).2.1, (seedFromTable d.table).2.2, [], [], false, [], []⟩ 0
  revert h
  rcases hc : CompileInput ⟨d, [], (seedFromTable d.table).1, (seedFromTable d.table).2.1,
      (seedFromTable d.table).2.2, [], [], false, [], []⟩ 0 lines with e | st
  · intro h
    simp at h
  · rw [hc] at ht
    intro h
    simp only [BuildResult.ok.injEq] at h
    rw [← h]
    have hA : AllInitT st.deckSt.table := by
      rw [ht]
      exact hd
    exact AllInit_harvest st.deckSt st hA

/-- One successful operation keeps the invariant. -/
theorem applyOp_AllInit (d d2 : Deck) (op : DeckOp)
    (hd : AllInit d) (h : applyOp d op = some d2) : AllInit d2 := by
  cases op with
  | add s n v c =>
    simp only [applyOp, Option.some.injEq] at h
    rw [← h]
    exact AllInit_AddCard d s n v c hd
  | update s n v c =>
    simp only [applyOp] at h
    rcases hu : UpdateCard d s n v c with ⟨r, du⟩
    rw [hu] at h
    rcases r with e | u
    · simp at h
    · simp only [Option.some.injEq] at h
      cases u
      rw [← h]
      exact UpdateCard_ok_AllInit d du s n v c hd hu
  | remove s n =>
    simp only [applyOp] at h
    rcases hu : RemoveCard d s n with ⟨r, du⟩
    rw [hu] at h
    rcases r with e | u
    · simp at h
    · simp only [Option.some.injEq] at h
      cases u
      rw [← h]
      exact RemoveCard_ok_AllInit d du s n hd hu
  | getOrAdd s n v c =>
    simp only [applyOp] at h
    rcases hu : GetOrAddCardValue d s n v c with ⟨r, du⟩
    rw [hu] at h
    rcases r with e | rv
    · simp at h
    · simp only [Option.some.injEq] at h
      rw [← h]
      exact GetOrAdd_ok_AllInit d du s n v c rv hd hu
  | buildOp lines =>
    simp only [applyOp] at h
    rcases hb : Build d lines with db | ⟨msg, db⟩
    · rw [hb] at h
      simp only [Option.some.injEq] at h
      rw [← h]
      exact Build_ok_AllInit d db lines hd hb
    · rw [hb] at h
      simp at h

/-- Successful operation sequences keep the invariant. -/
theorem applyOps_AllInit (ops : List DeckOp) : ∀ (d d2 : Deck),
    AllInit d → applyOps d ops = some d2 → AllInit d2 := by
  induction ops with
  | nil =>
    intro d d2 hd h
    simp only [applyOps, Option.some.injEq] at h
    rw [← h]
    exact hd
  | cons op t ih =>
    intro d d2 hd h
    simp only [applyOps] at h
    rcases ha : applyOp d op with _ | d3
    · rw [ha] at h
      simp at h
    · rw [ha] at h
      exact ih d3 d2 (applyOp_AllInit d d3 op hd ha) h

/-- The empty deck satisfies the invariant. -/
theorem AllInit_empty : AllInit Deck.emptyDeck := by
  intro p hp
  simp [Deck.emptyDeck] at hp

/-- C6 (amended): every Deck state reachable from the empty Deck through
the mutating operations (AddCard, UpdateCard, RemoveCard,
GetOrAddCardValue, successful Build) holds only fully initialized
entries; however, a failed GetCard on an existing suit and a missing
card name inserts a partially constructed default entry through
map::operator[], so DoesCardExist for that suit/name pair answers true
after the failed lookup where it answered false before. -/
theorem C6_amended :
    (∀ d : Deck, Reachable d → AllInit d) ∧
    (∀ (d : Deck) (s n : Str), containsA d.table s = true → lookup2 d s n = none →
      (GetCard d s n).1.isOk = false ∧
      DoesCardExist d s n = false ∧
      DoesCardExist (GetCard d s n).2 s n = true) := by
  constructor
  · intro d hr
    obtain ⟨ops, hops⟩ := hr
    exact applyOps_AllInit ops Deck.emptyDeck d AllInit_empty hops
  · intro d s n hs hmiss
    rcases hm : lookupA d.table s with _ | m
    · rw [containsA, hm] at hs
      simp at hs
    · simp only [lookup2, hm] at hmiss
      rw [GetCard_miss d s n m hm hmiss]
      refine ⟨rfl, ?_, ?_⟩
      · simp [DoesCardExist, hm, containsA, hmiss]
      · simp [DoesCardExist, containsA, lookupA_insertA]

/-- C6 counterexample: on a deck with suit s holding only card a, the
failed lookup GetCard(s, b) changes the answer of DoesCardExist(s, b)
from false to true, because the C++ reads deck[suit][name] and thereby
inserts a default-constructed card before testing empty(); the claim
says the answer is unchanged. -/
theorem C6_counterexample :
    DoesCardExist getCardDeck ("s").toList ("b").toList = false ∧
    (GetCard getCardDeck ("s").toList ("b").toList).1.isOk = false ∧
    DoesCardExist (GetCard getCardDeck ("s").toList ("b").toList).2
      ("s").toList ("b").toList = true := by
  decide

/-- C6 witness: the amended theorem applied to a concrete reachable deck
and to the concrete failed lookup. -/
theorem C6_witness :
    AllInit getCardDeck ∧
    DoesCardExist (GetCard getCardDeck ("s").toList ("b").toList).2
      ("s").toList ("b").toList = true :=
  ⟨C6_amended.1 getCardDeck
      ⟨[DeckOp.add (("s").toList) (("a").toList) (Value.num 1) []], by decide⟩,
   (C6_amended.2 getCardDeck (("s").toList) (("b").toList) (by decide) (by decide)).2.2⟩

/-! ## C3: the suits_in_order invariant -/

/-- C3 evaluation at the failing inputs: AddCard creates the table suit s
without registering it in suits_in_order (the claimed invariant demands
exactly one occurrence, the code leaves zero), and one Build whose text
opens a brand-new suit twice pushes it onto suits_in_order twice, because
the registration guard at deck.cpp line 156 consults the table, which the
commented-out insertion at line 157 no longer fills during the parse. -/
theorem C3_failing_eval :
    (containsA (AddCard Deck.emptyDeck ("s").toList ("a").toList (Value.num 1) []).table
        ("s").toList = true ∧
      (AddCard Deck.emptyDeck ("s").toList ("a").toList (Value.num 1) []).suits.count
        ("s").toList = 0) ∧
    (containsA (Build Deck.emptyDeck dupSuitLines).deckOf.table ("s").toList = true ∧
      (Build Deck.emptyDeck dupSuitLines).deckOf.suits.count ("s").toList = 2) := by
  decide

/-! ## C5: the separator round trip across Build -/

/-- C5 evaluation at the failing input: the first Build stores the card
under suit a/b (the CompileInput qualification with a dot and the
harvest derivation round-trip), but the reseed loop of the next Build
qualifies the same entry with an underscore, so the re-derived suit is
a_b and the rebuilt Deck carries the card under the new suit a_b. -/
theorem C5_failing_eval :
    DoesCardExist (Build Deck.emptyDeck slashSuitLines).deckOf
      ("a/b").toList ("x").toList = true ∧
    deriveSuitCard (("a.b.x").toList) = ((("a/b").toList, ("x").toList)) ∧
    lookupA (seedFromTable (Build Deck.emptyDeck slashSuitLines).deckOf.table).1
      ("a_b.x").toList = some (Value.num 1) ∧
    deriveSuitCard (("a_b.x").toList) = ((("a_b").toList, ("x").toList)) ∧
    DoesCardExist (Build (Build Deck.emptyDeck slashSuitLines).deckOf []).deckOf
      ("a_b").toList ("x").toList = true := by
  decide

/-! ## C10: Deck copying -/

/-- C10 (amended): the copy constructor copies only the table and resets
suits_in_order to the single root sentinel, so WriteDeck on the
constructed copy emits only the root-suit entries and no suit header,
while the exact lookups still see every copied entry; copy assignment
also copies only the table but keeps the TARGET deck suits_in_order
unchanged rather than resetting it. -/
theorem C10_amended (d t : Deck) (s n : Str) :
    (copyDeck d).suits = [['/']] ∧
    (copyDeck d).table = d.table ∧
    (assignDeck t d).table = d.table ∧
    (assignDeck t d).suits = t.suits ∧
    WriteDeck (copyDeck d) =
      (match lookupA d.table ['/'] with
       | none => []
       | some m => m.map (fun p => renderCard p.1 p.2) ++ [([] : Str)]) ∧
    DoesCardExist (copyDeck d) s n = DoesCardExist d s n ∧
    (GetCard (copyDeck d) s n).1 = (GetCard d s n).1 := by
  refine ⟨rfl, rfl, rfl, rfl, ?_, rfl, ?_⟩
  · cases hm : lookupA d.table ['/'] with
    | none => simp [WriteDeck, copyDeck, hm]
    | some m => simp [WriteDeck, copyDeck, hm]
  · rcases hm : lookupA d.table s with _ | m
    · simp [GetCard, copyDeck, hm]
    · rcases hn : lookupA m n with _ | c
      · simp [GetCard, copyDeck, hm, hn]
      · by_cases hi : c.initialized = true <;> simp [GetCard, copyDeck, hm, hn, hi]

/-- C10 counterexample: copy-assigning one built deck into another leaves
the target suits_in_order (root plus suit b) in place, so the copy of a
deck whose suits_in_order holds the non-root suit a does not have the
claimed single-root suit list. -/
theorem C10_counterexample :
    (("a").toList ∈ c10SourceDeck.suits ∧ ¬ ("a").toList = ("/").toList) ∧
    ¬ (assignDeck c10TargetDeck c10SourceDeck).suits = [("/").toList] := by
  decide

/-! ## C7: slice expansion count -/

/-- takeWhile keeps a list all of whose elements satisfy the predicate. -/
theorem takeWhile_all {α : Type} (p : α → Bool) (l : List α) (h : ∀ c ∈ l, p c = true) :
    l.takeWhile p = l := by
  induction l with
  | nil => rfl
  | cons a t ih =>
    simp only [List.takeWhile_cons, h a (List.mem_cons_self a t), if_true]
    rw [ih (fun c hc => h c (List.mem_cons_of_mem a hc))]

/-- A quote-free string passes RemoveWhitespacePreserveQuotes with plain
whitespace removal. -/
theorem rwpq_no_quote (s : Str) (n : Nat) (h : ('"') ∉ s) :
    RemoveWhitespacePreserveQuotes s n = .ok (RemoveWhitespace s) := by
  have hpre : s.takeWhile (fun c => !(c == '"')) = s := by
    apply takeWhile_all
    intro c hc
    simp only [Bool.not_eq_true']
    exact beq_false_of_ne (fun hceq => h (hceq ▸ hc))
  simp only [RemoveWhitespacePreserveQuotes, hpre]
  simp

/-- digitChar never yields a double quote. -/
theorem digitChar_ne_quote (n : Nat) : ¬ digitChar n = '"' := by
  unfold digitChar
  split <;> decide

/-- The digit expansion never contains a double quote. -/
theorem natToCharsAux_no_quote : ∀ (fuel n : Nat), ('"') ∉ natToCharsAux fuel n := by
  intro fuel
  induction fuel with
  | zero =>
    intro n
    simp [natToCharsAux]
  | succ f ih =>
    intro n
    simp only [natToCharsAux]
    split
    · intro hmem
      rcases List.mem_singleton.mp hmem with h
      exact digitChar_ne_quote n h.symm
    · intro hmem
      rcases List.mem_append.mp hmem with h1 | h2
      · exact ih (n / 10) h1
      · exact digitChar_ne_quote (n % 10) (List.mem_singleton.mp h2).symm

/-- int rendering never contains a double quote. -/
theorem intToChars_no_quote (i : Int) : ('"') ∉ intToChars i := by
  unfold intToChars
  split
  · intro hmem
    rcases List.mem_cons.mp hmem with h1 | h2
    · exact absurd h1 (by decide)
    · exact natToCharsAux_no_quote _ _ h2
  · exact natToCharsAux_no_quote _ _

/-- The synthesized slice names contain no double quote when the scanned
parts contain none. -/
theorem sliceContents_no_quote (i : Int) :
    ∀ (parts : List Str) (lows : List Int), (∀ p ∈ parts, ('"') ∉ p) →
      ('"') ∉ sliceContents i parts lows := by
  intro parts
  induction parts with
  | nil =>
    intro lows _
    simp [sliceContents]
  | cons p ps ih =>
    intro lows hp hmem
    simp only [sliceContents] at hmem
    rcases List.mem_append.mp hmem with h1 | h2
    · exact hp p (List.mem_cons_self _ _) h1
    · rcases List.mem_cons.mp h2 with h3 | h4
      · exact absurd h3 (by decide)
      · rcases List.mem_append.mp h4 with h5 | h6
        · exact intToChars_no_quote _ h5
        · rcases List.mem_cons.mp h6 with h7 | h8
          · exact absurd h7 (by decide)
          · exact ih lows.tail (fun q hq => hp q (List.mem_cons_of_mem _ hq)) h8

/-- mapM over Except succeeds with the same length when every element
succeeds. -/
theorem mapM_ok_length {α β : Type} (f : α → Except Str β) :
    ∀ (l : List α), (∀ a ∈ l, ∃ b, f a = .ok b) →
      ∃ bs, l.mapM f = .ok bs ∧ bs.length = l.length := by
  intro l
  induction l with
  | nil =>
    intro _
    exact ⟨[], rfl, rfl⟩
  | cons a t ih =>
    intro h
    obtain ⟨b, hb⟩ := h a (List.mem_cons_self a t)
    obtain ⟨bs, hbs, hlen⟩ := ih (fun x hx => h x (List.mem_cons_of_mem a hx))
    refine ⟨b :: bs, ?_, by simp [hlen]⟩
    rw [List.mapM_cons, hb, hbs]
    rfl

/-- C7 (amended): on the slice branch the number of scalar names built by
SplitString equals the minimum span over the zipped range bounds, clamped
above by the 99999 sentinel the count starts from and clamped below at
zero (Int.toNat), rather than the bare minimum the claim states; and the
concrete example of the claim does hold: compiling a = [1,2,3] then
b[:2] = a[:3] produces exactly two b entries, equal to the first two a
entries. -/
theorem C7_amended :
    (∀ (s : Str) (ln : Nat) (mx : Int) (parts : List Str) (lowers uppers : List Int),
      sliceScan s ln mx = .ok (parts, lowers, uppers) →
      s.contains ':' = true →
      lowers ≠ [] →
      (∀ p ∈ parts, ('"') ∉ p) →
      (SplitString s ln mx).toOption.map List.length
        = some (minSpan lowers uppers).toNat) ∧
    ((FindCardFuzzy (Build Deck.emptyDeck sliceExampleLines).deckOf ("/").toList
        ("b[").toList).toOption.map List.length = some 2 ∧
      (lookup2 (Build Deck.emptyDeck sliceExampleLines).deckOf ("/").toList
          ("b[0]").toList).map Card.value
        = (lookup2 (Build Deck.emptyDeck sliceExampleLines).deckOf ("/").toList
          ("a[0]").toList).map Card.value ∧
      (lookup2 (Build Deck.emptyDeck sliceExampleLines).deckOf ("/").toList
          ("b[1]").toList).map Card.value
        = (lookup2 (Build Deck.emptyDeck sliceExampleLines).deckOf ("/").toList
          ("a[1]").toList).map Card.value ∧
      lookup2 (Build Deck.emptyDeck sliceExampleLines).deckOf ("/").toList
        ("b[2]").toList = none) := by
  constructor
  · intro s ln mx parts lowers uppers hscan hcol hne hq
    have hneg : ¬ s.contains ':' = false := by rw [hcol]; simp
    simp only [SplitString, if_neg hneg, hscan]
    obtain ⟨bs, hbs, hlen⟩ := mapM_ok_length
      (fun i => RemoveWhitespacePreserveQuotes
        (sliceContents (Int.ofNat i) parts lowers) ln)
      (List.range (minSpan lowers uppers).toNat)
      (fun i _ => ⟨RemoveWhitespace (sliceContents (Int.ofNat i) parts lowers),
        rwpq_no_quote _ ln (sliceContents_no_quote _ parts lowers hq)⟩)
    rw [hbs]
    simp [Except.toOption, hlen]
  · exact ⟨by decide, by decide, by decide, by decide⟩

/-- C7 counterexample: the right-hand expression a[0:2]b[1:0] holds two
ranges with spans 2 and -1; the claim says the number of generated
bindings is the minimum (-1), but the code generates none (the loop on a
negative count does not run), so the count is 0, not the minimum. -/
theorem C7_counterexample :
    (sliceScan ("a[0:2]b[1:0]").toList 5 (-1)).toOption
      = some ([("a").toList, ("b").toList], [0, 1], [2, 0]) ∧
    minSpan [0, 1] [2, 0] = -1 ∧
    ¬ ((SplitString ("a[0:2]b[1:0]").toList 5 (-1)).toOption.map
        (fun vs => (vs.length : Int)) = some (minSpan [0, 1] [2, 0])) := by
  decide

/-- C7 witness: the amended count theorem applied to the two-range
expression a[0:2]b[0:3], whose spans are 2 and 3. -/
theorem C7_witness :
    (SplitString ("a[0:2]b[0:3]").toList 0 (-1)).toOption.map List.length = some 2 :=
  ((C7_amended.1 (("a[0:2]b[0:3]").toList) 0 (-1)
      [("a").toList, ("b").toList] [0, 0] [2, 3]
      (by rfl) (by decide) (by decide) (by decide)).trans (by decide))

/-! ## C8: relative suit headers -/

/-- dropWhile keeps a list whose elements all fail the predicate. -/
theorem dropWhile_none {α : Type} (p : α → Bool) (l : List α)
    (h : ∀ c ∈ l, p c = false) : l.dropWhile p = l := by
  cases l with
  | nil => rfl
  | cons a t => simp [List.dropWhile_cons, h a (List.mem_cons_self a t)]

/-- trimSp keeps a space-free list. -/
theorem trimSp_all (l : Str) (h : ∀ c ∈ l, (c == ' ') = false) : trimSp l = l := by
  unfold trimSp
  rw [dropWhile_none _ _ h,
    dropWhile_none _ _ (fun c hc => h c (List.mem_reverse.mp hc)),
    List.reverse_reverse]

/-- takeWhile runs over a satisfying prefix and stops at the first
failing element. -/
theorem takeWhile_append_stop {α : Type} (p : α → Bool) (l1 l2 : List α) (a : α)
    (hl : ∀ c ∈ l1, p c = true) (ha : p a = false) :
    (l1 ++ a :: l2).takeWhile p = l1 := by
  induction l1 with
  | nil => simp [List.takeWhile_cons, ha]
  | cons b t ih =>
    simp only [List.cons_append, List.takeWhile_cons, hl b (List.mem_cons_self b t), if_true]
    rw [ih (fun c hc => hl c (List.mem_cons_of_mem b hc))]

/-- The members of a relative header line. -/
theorem relLine_chars (s : Str) (c : Char) (h : c ∈ relLine s) :
    c = '<' ∨ c = '.' ∨ c = '>' ∨ c ∈ s := by
  simp only [relLine, List.mem_cons, List.mem_append, List.mem_singleton] at h
  tauto

/-- The header branch on a well-formed relative name with an anchor. -/
theorem handleHeader_rel (st : CState) (n : Nat) (s : Str)
    (hg : goodName s) (hp : st.prevSuit ≠ []) :
    handleHeader st n (relLine s) = .ok { st with
      currSuit := st.prevSuit ++ s,
      deckSt := { st.deckSt with suits :=
        if (containsA st.deckSt.table (st.prevSuit ++ s)) = true then st.deckSt.suits
        else st.deckSt.suits ++ [st.prevSuit ++ s] },
      locals := [] } := by
  have hdrop : (relLine s).drop 1 = ('.' :: '.' :: s) ++ ['>'] := by
    simp [relLine]
  have hcont : ((('.' :: '.' :: s) ++ ['>']).contains '>') = true := by
    simp [List.contains]
  have htake : (('.' :: '.' :: s) ++ ['>']).takeWhile (fun c => !(c == '>')) = '.' :: '.' :: s := by
    apply takeWhile_append_stop
    · intro c hc
      simp only [Bool.not_eq_true']
      rcases List.mem_cons.mp hc with h1 | h1
      · rw [h1]; decide
      · rcases List.mem_cons.mp h1 with h2 | h2
        · rw [h2]; decide
        · exact beq_false_of_ne (hg.2 c h2).2.2
    · decide
  have hws : RemoveWhitespace ('.' :: '.' :: s) = '.' :: '.' :: s := by
    apply List.filter_eq_self.mpr
    intro c hc
    simp only [Bool.not_eq_true']
    rcases List.mem_cons.mp hc with h1 | h1
    · rw [h1]; decide
    · rcases List.mem_cons.mp h1 with h2 | h2
      · rw [h2]; decide
      · rw [(hg.2 c h2).1]
  simp only [handleHeader, hdrop, hcont, htake, hws]
  simp [hp]

/-- The header branch on a well-formed relative name without an anchor is
fatal. -/
theorem handleHeader_rel_fatal (st : CState) (n : Nat) (s : Str)
    (hg : goodName s) (hp : st.prevSuit = []) :
    handleHeader st n (relLine s) = .error ((("Cannot use .. in suit name at line ").toList
      ++ natToChars n), st) := by
  have hdrop : (relLine s).drop 1 = ('.' :: '.' :: s) ++ ['>'] := by
    simp [relLine]
  have hcont : ((('.' :: '.' :: s) ++ ['>']).contains '>') = true := by
    simp [List.contains]
  have htake : (('.' :: '.' :: s) ++ ['>']).takeWhile (fun c => !(c == '>')) = '.' :: '.' :: s := by
    apply takeWhile_append_stop
    · intro c hc
      simp only [Bool.not_eq_true']
      rcases List.mem_cons.mp hc with h1 | h1
      · rw [h1]; decide
      · rcases List.mem_cons.mp h1 with h2 | h2
        · rw [h2]; decide
        · exact beq_false_of_ne (hg.2 c h2).2.2
    · decide
  have hws : RemoveWhitespace ('.' :: '.' :: s) = '.' :: '.' :: s := by
    apply List.filter_eq_self.mpr
    intro c hc
    simp only [Bool.not_eq_true']
    rcases List.mem_cons.mp hc with h1 | h1
    · rw [h1]; decide
    · rcases List.mem_cons.mp h1 with h2 | h2
      · rw [h2]; decide
      · rw [(hg.2 c h2).1]
  simp only [handleHeader, hdrop, hcont, htake, hws]
  simp [hp]

/-- Whitespace-free character facts of a relative header line. -/
theorem relLine_nospace (s : Str) (hg : goodName s) :
    ∀ c ∈ relLine s, (c == ' ') = false := by
  intro c hc
  rcases relLine_chars s c hc with h | h | h | h
  · rw [h]; decide
  · rw [h]; decide
  · rw [h]; decide
  · have := (hg.2 c h).1
    simp only [isCppSpace, Bool.or_eq_false_iff] at this
    exact this.1.1.1.1.1

/-- On a well-formed relative header line with no pending continuation the
loop body dispatches straight to the header branch. -/
theorem processLine_rel (st : CState) (n : Nat) (s : Str)
    (hg : goodName s) (hlc : st.lineCont = false) :
    processLine st n (relLine s) = handleHeader st n (relLine s) := by
  have hsp : ∀ c ∈ relLine s, (c == ' ') = false := relLine_nospace s hg
  have h1 : (relLine s).filter (fun c => !(isCppSpace c && !(c == ' '))) = relLine s := by
    apply List.filter_eq_self.mpr
    intro c hc
    rcases relLine_chars s c hc with h | h | h | h
    · rw [h]; decide
    · rw [h]; decide
    · rw [h]; decide
    · rw [(hg.2 c h).1]; rfl
  have hne : ¬ (relLine s = []) := by simp [relLine]
  have h2 : (relLine s).dropWhile (fun c => c == ' ') = relLine s :=
    dropWhile_none _ _ hsp
  have h3 : (relLine s).takeWhile (fun c => !(c == '#')) = relLine s := by
    apply takeWhile_all
    intro c hc
    rcases relLine_chars s c hc with h | h | h | h
    · rw [h]; decide
    · rw [h]; decide
    · rw [h]; decide
    · simp only [Bool.not_eq_true', beq_eq_false_iff_ne]
      exact (hg.2 c h).2.1
  have h4 : commentStep st (relLine s) (relLine s) = st := by simp [commentStep]
  have h5 : trimSp (relLine s) = relLine s := trimSp_all _ hsp
  have h6 : (relLine s).getLast? = some '>' := by
    have hrw : relLine s = ('<' :: '.' :: '.' :: s) ++ ['>'] := by simp [relLine]
    rw [hrw, List.getLast?_concat]
  have h7 : fuseStep st (relLine s) = (relLine s, st) := by simp [fuseStep, hlc]
  have h8 : (relLine s).take 1 = ['<'] := by simp [relLine]
  have h9 : ¬ ((['<'] : Str) = ['#']) := by decide
  have h10 : ¬ ((some '>' : Option Char) = some '&') := by decide
  simp only [processLine, h1, hne, h2, h8, h9, h3, h4, h5, h6, h10, h7,
    if_false, if_true, ite_false, ite_true]

/-- The projected form of the relative-header step: the current suit
becomes the anchor followed by the fragment, while the anchor and the
continuation flag are untouched. -/
theorem processLine_rel_proj (st : CState) (n : Nat) (s : Str)
    (hg : goodName s) (hlc : st.lineCont = false) (hp : st.prevSuit ≠ []) :
    ∃ st1, processLine st n (relLine s) = .ok st1 ∧ st1.currSuit = st.prevSuit ++ s ∧
      st1.prevSuit = st.prevSuit ∧ st1.lineCont = false :=
  ⟨_, (processLine_rel st n s hg hlc).trans (handleHeader_rel st n s hg hp), rfl, rfl, hlc⟩

/-- A sequence of well-formed relative header lines compiles successfully
and keeps the anchor suit and the continuation flag. -/
theorem CompileInput_rel (lines : List Str) : ∀ (st : CState) (n : Nat),
    (∀ l ∈ lines, ∃ s, goodName s ∧ l = relLine s) →
    st.lineCont = false → st.prevSuit ≠ [] →
    ∃ st2, CompileInput st n lines = .ok st2 ∧ st2.prevSuit = st.prevSuit ∧
      st2.lineCont = false := by
  induction lines with
  | nil =>
    intro st n _ hlc _
    exact ⟨st, rfl, rfl, hlc⟩
  | cons l ls ih =>
    intro st n h hlc hp
    obtain ⟨s, hs, hl⟩ := h l (List.mem_cons_self l ls)
    obtain ⟨st1, he, _, hps1, hlc1⟩ := processLine_rel_proj st n s hs hlc hp
    rw [hl]
    simp only [CompileInput, he]
    obtain ⟨st2, hc, hps, hlc2⟩ :=
      ih st1 (n + 1) (fun l2 hl2 => h l2 (List.mem_cons_of_mem l hl2)) hlc1
        (by rw [hps1]; exact hp)
    exact ⟨st2, hc, hps.trans hps1, hlc2⟩

/-- C8: a suit header whose name begins with the two dots resolves by
replacing the dots with the previous non-relative suit name to form the
new current suit; the anchor itself is not updated by a relative
declaration, so every relative header in a chain resolves against the
same non-relative anchor; and a relative header is fatal when no
non-relative suit has been declared yet. -/
theorem C8_relative_suit_headers :
    (∀ (st : CState) (n : Nat) (s : Str), goodName s → st.lineCont = false →
      st.prevSuit ≠ [] →
      ∃ st2, processLine st n (relLine s) = .ok st2 ∧
        st2.currSuit = st.prevSuit ++ s ∧
        st2.prevSuit = st.prevSuit ∧ st2.lineCont = false) ∧
    (∀ (st : CState) (n : Nat) (s : Str), goodName s → st.lineCont = false →
      st.prevSuit = [] →
      processLine st n (relLine s) =
        .error ((("Cannot use .. in suit name at line ").toList ++ natToChars n), st)) ∧
    (∀ (lines : List Str) (st : CState) (n : Nat),
      (∀ l ∈ lines, ∃ s, goodName s ∧ l = relLine s) →
      st.lineCont = false → st.prevSuit ≠ [] →
      ∃ st2, CompileInput st n lines = .ok st2 ∧ st2.prevSuit = st.prevSuit ∧
        st2.lineCont = false) := by
  refine ⟨processLine_rel_proj, ?_, fun lines => CompileInput_rel lines⟩
  intro st n s hg hlc hp
  exact (processLine_rel st n s hg hlc).trans (handleHeader_rel_fatal st n s hg hp)

/-- C8 witness: the relative-header theorem applied with anchor suit
outer, at the anchorless fatal case, and at a two-line relative chain. -/
theorem C8_witness :
    (∃ st2, processLine relHeaderSt 0 (relLine (("inner").toList)) = .ok st2 ∧
        st2.currSuit = ("outer").toList ++ ("inner").toList ∧
        st2.prevSuit = ("outer").toList ∧ st2.lineCont = false) ∧
    processLine relHeaderSt0 0 (relLine (("x").toList)) =
      .error ((("Cannot use .. in suit name at line ").toList ++ natToChars 0), relHeaderSt0) ∧
    (∃ st2, CompileInput relHeaderSt 0 [relLine (("a").toList), relLine (("b").toList)] = .ok st2 ∧
        st2.prevSuit = ("outer").toList ∧ st2.lineCont = false) := by
  refine ⟨?_, ?_, ?_⟩
  · exact C8_relative_suit_headers.1 relHeaderSt 0 (("inner").toList) (by unfold goodName; decide) rfl (by decide)
  · exact C8_relative_suit_headers.2.1 relHeaderSt0 0 (("x").toList) (by unfold goodName; decide) rfl rfl
  · refine C8_relative_suit_headers.2.2 [relLine (("a").toList), relLine (("b").toList)]
      relHeaderSt 0 ?_ rfl (by decide)
    intro l hl
    rcases List.mem_cons.mp hl with h | h
    · exact ⟨("a").toList, by unfold goodName; decide, h⟩
    · rcases List.mem_cons.mp h with h2 | h2
      · exact ⟨("b").toList, by unfold goodName; decide, h2⟩
      · exact absurd h2 (List.not_mem_nil l)

end Rummy
